import Mathlib

/-
Verification of the chunk replication and recovery core of the QFS chunk
server (src/src/cc/chunk/Replicator.cc).

The development is a shallow embedding: the C++ state machine of
ReplicatorImpl is transcribed as a Lean step function over an explicit
state record, callbacks become events consumed from a trace, and results
of external collaborators (ChunkManager, BufferManager, the peer) are
supplied by an oracle attached to every event.  Calls into the external
collaborators are accumulated in an effect log inside the state.

Buffers (IOBuffer) are modelled by the one datum the replication logic
reads off them, their length in bytes (BytesConsumable); the bad-stripe
diagnostic parser, which looks at buffer contents, models the buffer as a
list of bytes.  C++ int / int64_t become Int; all division and modulus
sites in the embedded code operate on non-negative operands (established
by the invariants proved below), where Lean's Int division and modulus
agree with C's.
-/

/-- Modelled from the spec: CHECKSUM_BLOCKSIZE is defined in
kfsio/checksum.h, which is not under src/.  It is the fixed checksum
block constant of the chunk server, 64 KiB. -/
def CHECKSUM_BLOCKSIZE : Int := 65536

/-- Modelled from the spec: CHUNKSIZE is defined outside src/.  It is the
fixed chunk size, 64 MiB; the spec's glossary calls it CHUNK_SIZE. -/
def CHUNKSIZE : Int := 67108864

/-- Modelled from the spec: -EINVAL is the POSIX invalid-argument error,
22. -/
def EINVAL : Int := 22

/-- Replicator.cc line 183: default read size, the smallest multiple of
CHECKSUM_BLOCKSIZE that is at least 1 MiB. -/
def kDefaultReplicationReadSize : Int :=
  (2 ^ 20 + CHECKSUM_BLOCKSIZE - 1) / CHECKSUM_BLOCKSIZE * CHECKSUM_BLOCKSIZE

namespace RSReplicatorImpl

/-- RSReplicatorImpl::GetGcd (Replicator.cc lines 1013-1023): Euclid's
loop, `while (b != 0) { t = b; b = a % b; a = t; }; return a`. -/
def GetGcd (a b : Int) : Int :=
  if b = 0 then a else GetGcd b (a % b)
termination_by b.natAbs
decreasing_by
  rename_i h
  have h1 := Int.emod_nonneg a h
  have h2 := Int.emod_lt a h
  rw [Int.abs_eq_natAbs] at h2
  omega

/-- RSReplicatorImpl::GetLcm (Replicator.cc lines 1024-1025). -/
def GetLcm (nl nr : Int) : Int :=
  if nl = 0 ∨ nr = 0 then 0 else nl / GetGcd nl nr * nr

/-- RSReplicatorImpl::GetReadSize (Replicator.cc lines 972-1012).  The
static configuration value sRSReaderMaxReadSize, the io buffer size
IOBufferData::GetDefaultBufferSize(), the buffer manager quota
GetMaxClientQuota() and the op's numStripes and stripeSize are passed as
arguments. -/
def GetReadSize (maxReadSize stripeSize ioBufSize quota numStripes : Int) : Int :=
  let kChecksumBlockSize := CHECKSUM_BLOCKSIZE
  let size := max kChecksumBlockSize
      (min maxReadSize (quota / max 1 (numStripes + 1) / kChecksumBlockSize * kChecksumBlockSize))
  if size ≤ stripeSize then
    size
  else
    let lcm := GetLcm kChecksumBlockSize stripeSize
    if lcm > size then
      let lcm := GetLcm ioBufSize stripeSize
      if lcm > size then lcm else size / lcm * lcm
    else
      size / lcm * lcm

end RSReplicatorImpl

/- ## The in-flight replication registry (sInFlightReplications)

The std::map keyed by chunk id is embedded as an association list with
pairwise distinct keys.  Instances are identified by an opaque Nat. -/

/-- Lookup in the registry (std::map::find). -/
def regFind : List (Int × Nat) → Int → Option Nat
  | [], _ => none
  | (c, v) :: rest, key => if c = key then some v else regFind rest key

/-- std::map::insert: returns the map and whether insertion took place
(false on key collision, in which case the map is unchanged). -/
def regInsert (r : List (Int × Nat)) (key : Int) (v : Nat) : List (Int × Nat) × Bool :=
  match regFind r key with
  | some _ => (r, false)
  | none => ((key, v) :: r, true)

/-- Overwrite the mapped value at a key (res.first->second = this). -/
def regSet : List (Int × Nat) → Int → Nat → List (Int × Nat)
  | [], _, _ => []
  | (c, v) :: rest, key, nv =>
    if c = key then (key, nv) :: rest else (c, v) :: regSet rest key nv

/-- std::map::erase of a key (destructor, Replicator.cc lines 245-252). -/
def regErase : List (Int × Nat) → Int → List (Int × Nat)
  | [], _ => []
  | (c, v) :: rest, key => if c = key then rest else (c, v) :: regErase rest key

/-- The registry keys are pairwise distinct (std::map has at most one
entry per key). -/
def regKeysNodup (r : List (Int × Nat)) : Prop := (r.map Prod.fst).Nodup

namespace ReplicatorImpl

/-- The registry-insertion part of ReplicatorImpl::Run (Replicator.cc
lines 258-292).  `otherWaiting` says whether the incumbent instance was
waiting for buffers, in which case its Cancel() synchronously terminates
and destroys it, and the destructor removes its registry entry (this is
the "Cancel can delete the other replicator" comment, lines 277-278).
Returns the new registry and whether the incoming instance terminated
immediately: that happens exactly in the self-collision case (lines
281-291), where other.Cancel() set this instance's own cancel flag, which
Run then observes, clears, and terminates. -/
def RunRegister (reg : List (Int × Nat)) (chunkId : Int) (self : Nat)
    (otherWaiting : Bool) : List (Int × Nat) × Bool :=
  match regInsert reg chunkId self with
  | (reg1, true) => (reg1, false)
  | (_, false) =>
    match regFind reg chunkId with
    | none => (reg, false)
    | some other =>
      if other = self then
        (regSet reg chunkId self, true)
      else
        let regAfterCancel := if otherWaiting then regErase reg chunkId else reg
        match regInsert regAfterCancel chunkId self with
        | (reg2, true) => (reg2, false)
        | (_, false) => (regSet regAfterCancel chunkId self, false)

end ReplicatorImpl

/- ## The dispatcher (Replicator::Run, Replicator.cc lines 1087-1142) -/

/-- The counters of ReplicatorImpl::sCounters that the dispatcher
touches. -/
structure Counters where
  mReplicationCount : Int
  mRecoveryCount : Int
  mReplicationErrorCount : Int
  mRecoveryErrorCount : Int
deriving DecidableEq

/-- The fields of ReplicateChunkOp that the replication core reads or
writes.  `locationValid` is op->location.IsValid(), `locationPort` is
op->location.port. -/
structure ReplicateChunkOp where
  fid : Int
  chunkId : Int
  chunkVersion : Int
  locationValid : Bool
  locationPort : Int
  chunkOffset : Int
  striperType : Int
  numStripes : Int
  numRecoveryStripes : Int
  stripeSize : Int
  fileSize : Int
  status : Int
  invalidStripeIdx : String
deriving DecidableEq

/-- Modelled from the spec: the constants KFS_STRIPED_FILE_TYPE_RS,
KFS_MIN_STRIPE_SIZE, KFS_MAX_STRIPE_SIZE and KFS_STRIPE_ALIGNMENT come
from common/kfstypes.h, which is not under src/; they are kept abstract
as a parameter record. -/
structure RsLimits where
  rsType : Int
  minStripeSize : Int
  maxStripeSize : Int
  stripeAlignment : Int
deriving DecidableEq

/-- The disjunction of RS-geometry checks of Replicator::Run
(Replicator.cc lines 1117-1126); the op is invalid when any holds. -/
def rsInvalid (L : RsLimits) (op : ReplicateChunkOp) : Prop :=
  op.chunkOffset < 0 ∨ op.chunkOffset % CHUNKSIZE ≠ 0 ∨
  op.striperType ≠ L.rsType ∨ op.numStripes ≤ 0 ∨ op.numRecoveryStripes ≤ 0 ∨
  op.stripeSize < L.minStripeSize ∨ L.maxStripeSize < op.stripeSize ∨
  CHUNKSIZE % op.stripeSize ≠ 0 ∨ op.stripeSize % L.stripeAlignment ≠ 0 ∨
  op.locationPort ≤ 0

instance (L : RsLimits) (op : ReplicateChunkOp) : Decidable (rsInvalid L op) := by
  unfold rsInvalid
  infer_instance

/-- The outcome of Replicator::Run: updated counters and op,
whether a replicator instance was constructed (and run), and whether the
dispatcher itself submitted the op response. -/
structure DispatchResult where
  ctrs : Counters
  op : ReplicateChunkOp
  constructed : Bool
  responded : Bool
deriving DecidableEq

namespace Replicator

/-- Replicator::Run (Replicator.cc lines 1087-1142).  `peerFound` is the
outcome of obtaining a peer connection (pool lookup or fresh connect) for
the valid-location branch. -/
def Run (L : RsLimits) (ctrs : Counters) (op : ReplicateChunkOp)
    (peerFound : Bool) : DispatchResult :=
  if op.locationValid then
    let ctrs := { ctrs with mReplicationCount := ctrs.mReplicationCount + 1 }
    if peerFound then
      ⟨ctrs, op, true, false⟩
    else
      ⟨{ ctrs with mReplicationErrorCount := ctrs.mReplicationErrorCount + 1 },
        { op with status := -1 }, false, true⟩
  else
    let ctrs := { ctrs with mRecoveryCount := ctrs.mRecoveryCount + 1 }
    if rsInvalid L op then
      ⟨{ ctrs with mRecoveryErrorCount := ctrs.mRecoveryErrorCount + 1 },
        { op with status := -EINVAL }, false, true⟩
    else
      ⟨ctrs, op, true, false⟩

end Replicator

/- ## The replication state machine (ReplicatorImpl)

Each asynchronous callback of the C++ object becomes an event; results
that external collaborators return synchronously inside a handler
(AllocChunk, WriteChunk, ChangeChunkVers, the registry lookup in
HandleReplicationDone, the buffer manager admission verdict) are supplied
by an oracle attached to the event.  Calls into the collaborators are
recorded in an effect log carried in the state. -/

/-- A call into an external collaborator, as recorded in the log. -/
inductive Eff where
  | bufRequest (bytes : Int)
  | peerMeta
  | peerRead (offset numBytes : Int)
  | staleChunk (chunkId : Int)
  | allocChunk (fileId chunkId version : Int)
  | writeChunk (offset numBytes : Int)
  | changeChunkVers (chunkId version : Int) (stable : Bool)
  | replicationDone (chunkId status : Int)
  | submitResponse (status chunkVersion : Int)
deriving DecidableEq

/-- The mGetChunkMetadataOp fields the machine reads. -/
structure MetaOpS where
  status : Int
  chunkSize : Int
  chunkVersion : Int
deriving DecidableEq

/-- The mReadOp fields the machine reads and writes.  `dataBuf` is the
length in bytes of the op's IOBuffer (none when the pointer is null). -/
structure ReadOpS where
  status : Int
  offset : Int
  numBytes : Int
  numBytesIo : Int
  dataBuf : Option Int
deriving DecidableEq

/-- The mWriteOp fields the machine reads and writes.  The source field
numBytesIO is spelled numBytesIo here. -/
structure WriteOpS where
  status : Int
  offset : Int
  numBytes : Int
  numBytesIo : Int
  dataBuf : Option Int
deriving DecidableEq

/-- BytesConsumable() of a possibly-null IOBuffer: the null pointer reads
as zero bytes (Replicator.cc line 425). -/
def bufLen : Option Int → Int
  | some n => n
  | none => 0

/-- The state of one ReplicatorImpl instance.  `targetVersion` is a ghost
copy of the op's chunkVersion at dispatch (the meta-server-supplied
target version); `ownerStatus` and `ownerVersion` are the op fields the
instance fills on completion; `supersededAtDone` is a ghost record of
whether, at the moment HandleReplicationDone ran, the instance was
canceled and no longer the registered instance for its chunk;
`bufferBytesRequired` is the value of the GetBufferBytesRequired virtual
(kDefaultReplicationReadSize for plain replication). -/
structure ReplState where
  fileId : Int
  chunkId : Int
  chunkVersion : Int
  chunkSize : Int
  offset : Int
  done : Bool
  canceled : Bool
  metaOp : MetaOpS
  readOp : ReadOpS
  writeOp : WriteOpS
  targetVersion : Int
  ownerStatus : Int
  ownerVersion : Int
  supersededAtDone : Option Bool
  bufferBytesRequired : Int
  log : List Eff
deriving DecidableEq

/-- Where the instance is suspended, i.e. which callback it waits for. -/
inductive Phase where
  | preRun
  | admitWait
  | metaWait
  | readWait
  | writeWait
  | commitWait
  | finished
deriving DecidableEq

/-- An asynchronous callback delivered to the instance.  readDone carries
the peer read status and the length of the delivered buffer; writeDone
carries the disk write status. -/
inductive Ev where
  | runEv
  | granted
  | cancel
  | startDone (status chunkSize chunkVersion : Int)
  | readDone (status : Int) (nread : Int)
  | writeDone (status : Int)
  | commitDone (status : Int)
deriving DecidableEq

/-- Synchronous results of external collaborators consulted during one
handler run: IsOverQuota and GetForDiskIo of the buffer manager,
AllocChunk and WriteChunk and ChangeChunkVers return values, and whether
the registry still maps this chunk to this instance (the lookup in
HandleReplicationDone, Replicator.cc lines 573-577). -/
structure Oracle where
  overQuota : Bool
  grantSync : Bool
  allocRes : Int
  writeRes : Int
  ccvRes : Int
  registeredSelf : Bool
deriving DecidableEq

namespace ReplicatorImpl

/-- ReplicatorImpl::HandleReplicationDone (Replicator.cc lines 551-603),
with `status` the int the callback dereferences.  Counter updates (lines
583-597) concern the dispatcher-level counters and are modelled there. -/
def ownerStatusOf (status : Int) : Int := if 0 ≤ status then 0 else -1

def ownerVersionOf (s : ReplState) (status : Int) : Int :=
  if ¬ s.canceled ∧ 0 ≤ status then s.chunkVersion else -1

def notifyEffsOf (s : ReplState) (status : Int) (o : Oracle) : List Eff :=
  if (if s.canceled then o.registeredSelf else true) then
    [Eff.replicationDone s.chunkId status]
  else []

def HandleReplicationDone (s : ReplState) (status : Int) (o : Oracle) :
    ReplState × Phase :=
  ({ s with
      ownerStatus := ownerStatusOf status
      ownerVersion := ownerVersionOf s status
      supersededAtDone := some (s.canceled && !o.registeredSelf)
      log := s.log ++ notifyEffsOf s status o ++
        [Eff.submitResponse (ownerStatusOf status) (ownerVersionOf s status)] },
    Phase.finished)

/-- ReplicatorImpl::Terminate (Replicator.cc lines 528-549). -/
def Terminate (s : ReplState) (o : Oracle) : ReplState × Phase :=
  if s.done ∧ ¬ s.canceled then
    let s1 := { s with
      log := s.log ++ [Eff.changeChunkVers s.chunkId s.chunkVersion true] }
    if o.ccvRes = 0 then (s1, Phase.commitWait)
    else HandleReplicationDone s1 o.ccvRes o
  else
    HandleReplicationDone s (-1) o

/-- ReplicatorImpl::Read (Replicator.cc lines 387-418). -/
def Read (s : ReplState) (o : Oracle) : ReplState × Phase :=
  if s.chunkSize ≤ s.offset then
    Terminate { s with done := s.offset = s.chunkSize } o
  else
    let nb := min (s.chunkSize - s.offset) kDefaultReplicationReadSize
    ({ s with
        readOp := { s.readOp with
          status := 0, offset := s.offset, numBytesIo := 0, numBytes := nb }
        log := s.log ++ [Eff.peerRead s.offset nb] },
      Phase.readWait)

/-- ReplicatorImpl::HandleReadDone (Replicator.cc lines 420-492), run
after the event updated mReadOp.status and mReadOp.dataBuf (or directly
from HandleWriteDone for the tail flush).  Modelled from the spec for the
disk layer: gChunkManager.WriteChunk queues the write and returns
o.writeRes (negative on immediate failure). -/
def numRdOf (s : ReplState) : Int := bufLen s.readOp.dataBuf

/-- The read status after the short-read check of Replicator.cc lines
426-444. -/
def rStatusOf (s : ReplState) : Int :=
  if s.readOp.status < 0 then s.readOp.status
  else if ¬ s.canceled ∧ numRdOf s < s.readOp.numBytes ∧
      s.offset + numRdOf s < s.chunkSize then -EINVAL
  else s.readOp.status

/-- mReadOp after the buffer swap of Replicator.cc lines 453-463: the
read op keeps the old (cleared) write buffer. -/
def postReadOp (s : ReplState) : ReadOpS :=
  { s.readOp with
    status := rStatusOf s
    dataBuf := match s.writeOp.dataBuf with
      | some _ => some 0
      | none => none }

/-- mWriteOp after the buffer swap: it adopts the read buffer, writing
numRd bytes at the current offset. -/
def plainWriteOp (s : ReplState) : WriteOpS :=
  { s.writeOp with
    dataBuf := s.readOp.dataBuf
    numBytes := numRdOf s
    offset := s.offset }

/-- mWriteOp with the write length aligned down to a checksum block
(Replicator.cc line 471). -/
def alignedWriteOp (s : ReplState) : WriteOpS :=
  { plainWriteOp s with
    numBytes := numRdOf s - numRdOf s % CHECKSUM_BLOCKSIZE }

/-- mWriteOp in the misaligned-tail case (Replicator.cc lines 472-483):
after swapping back and moving the aligned prefix, the write buffer holds
exactly the aligned prefix. -/
def tailWriteOp (s : ReplState) : WriteOpS :=
  { alignedWriteOp s with
    dataBuf := some (numRdOf s - numRdOf s % CHECKSUM_BLOCKSIZE) }

/-- mReadOp in the misaligned-tail case: the read buffer keeps the tail,
positioned after the aligned prefix. -/
def tailReadOp (s : ReplState) : ReadOpS :=
  { postReadOp s with
    dataBuf := some (numRdOf s % CHECKSUM_BLOCKSIZE)
    offset := s.offset + (numRdOf s - numRdOf s % CHECKSUM_BLOCKSIZE)
    numBytesIo := numRdOf s % CHECKSUM_BLOCKSIZE
    numBytes := numRdOf s % CHECKSUM_BLOCKSIZE }

/-- The tail of HandleReadDone: store the new sub-ops, submit the write
through gChunkManager.WriteChunk (lines 486-491), and abort on an
immediate failure.  Modelled from the spec for the disk layer: WriteChunk
returns o.writeRes, negative on immediate failure. -/
def submitWrite (s : ReplState) (r : ReadOpS) (w : WriteOpS) (o : Oracle) :
    ReplState × Phase :=
  if o.writeRes < 0 then
    Terminate { s with
      readOp := r
      writeOp := w
      log := s.log ++ [Eff.writeChunk w.offset w.numBytes] } o
  else
    ({ s with
      readOp := r
      writeOp := w
      log := s.log ++ [Eff.writeChunk w.offset w.numBytes] }, Phase.writeWait)

def HandleReadDone (s : ReplState) (o : Oracle) : ReplState × Phase :=
  if s.canceled ∨ rStatusOf s < 0 ∨ s.offset = s.chunkSize then
    Terminate { s with
      readOp := { s.readOp with status := rStatusOf s }
      done := s.offset = s.chunkSize ∧ 0 ≤ rStatusOf s ∧ ¬ s.canceled } o
  else if CHECKSUM_BLOCKSIZE < numRdOf s then
    if 0 < numRdOf s % CHECKSUM_BLOCKSIZE ∧
        s.offset + numRdOf s = s.chunkSize then
      submitWrite s (tailReadOp s) (tailWriteOp s) o
    else
      submitWrite s (postReadOp s) (alignedWriteOp s) o
  else
    submitWrite s (postReadOp s) (plainWriteOp s) o

/-- ReplicatorImpl::HandleWriteDone (Replicator.cc lines 494-526), run
after the event updated mWriteOp.status and numBytesIO. -/
def HandleWriteDone (s : ReplState) (o : Oracle) : ReplState × Phase :=
  if s.canceled ∨ s.writeOp.status < 0 then
    Terminate s o
  else if s.readOp.offset = s.offset + s.writeOp.numBytesIo ∧
      0 < bufLen s.readOp.dataBuf then
    HandleReadDone { s with offset := s.offset + s.writeOp.numBytesIo } o
  else
    Read { s with offset := s.offset + s.writeOp.numBytesIo } o

/-- ReplicatorImpl::HandleStartDone (Replicator.cc lines 348-385), run
after the event stored the metadata reply into mChunkMetadataOp. -/
def HandleStartDone (s : ReplState) (o : Oracle) : ReplState × Phase :=
  if s.canceled ∨ s.metaOp.status < 0 then
    Terminate s o
  else if s.metaOp.chunkSize < 0 ∨ CHUNKSIZE < s.metaOp.chunkSize then
    Terminate { s with
      chunkSize := s.metaOp.chunkSize
      chunkVersion := s.metaOp.chunkVersion } o
  else if o.allocRes < 0 then
    Terminate { s with
      chunkSize := s.metaOp.chunkSize
      chunkVersion := s.metaOp.chunkVersion
      log := s.log ++ [Eff.staleChunk s.chunkId,
                       Eff.allocChunk s.fileId s.chunkId 0] } o
  else
    Read { s with
      chunkSize := s.metaOp.chunkSize
      chunkVersion := s.metaOp.chunkVersion
      log := s.log ++ [Eff.staleChunk s.chunkId,
                       Eff.allocChunk s.fileId s.chunkId 0] } o

/-- ReplicatorImpl::Start (Replicator.cc lines 337-346): enqueue the
metadata request on the peer. -/
def Start (s : ReplState) : ReplState × Phase :=
  ({ s with log := s.log ++ [Eff.peerMeta] }, Phase.metaWait)

/-- The admission part of ReplicatorImpl::Run (Replicator.cc lines
294-318): request max(16 KiB, GetBufferBytesRequired()) bytes; an
over-quota verdict terminates the instance, a synchronous grant starts
it, otherwise it waits for Granted. -/
def RunAdmit (s : ReplState) (o : Oracle) : ReplState × Phase :=
  let bufBytes := max 16384 s.bufferBytesRequired
  let s := { s with log := s.log ++ [Eff.bufRequest bufBytes] }
  if o.overQuota then Terminate s o
  else if o.grantSync then Start s
  else (s, Phase.admitWait)

/-- One transition of the instance: which handler an event reaches in
which phase.  Cancel (ReplicatorImpl::Cancel, lines 153-161) sets the
flag and, only when the instance is waiting for buffers, revokes the wait
and terminates; in every other phase the in-flight callback observes the
flag later.  Events that cannot reach the instance in a phase yield
none. -/
def stepRepl (s : ReplState) (ph : Phase) (e : Ev) (o : Oracle) :
    Option (ReplState × Phase) :=
  match ph, e with
  | Phase.preRun, Ev.runEv => some (RunAdmit s o)
  | Phase.admitWait, Ev.granted => some (Start s)
  | Phase.admitWait, Ev.cancel => some (Terminate { s with canceled := true } o)
  | Phase.metaWait, Ev.cancel => some ({ s with canceled := true }, Phase.metaWait)
  | Phase.readWait, Ev.cancel => some ({ s with canceled := true }, Phase.readWait)
  | Phase.writeWait, Ev.cancel => some ({ s with canceled := true }, Phase.writeWait)
  | Phase.commitWait, Ev.cancel => some ({ s with canceled := true }, Phase.commitWait)
  | Phase.finished, Ev.cancel => some ({ s with canceled := true }, Phase.finished)
  | Phase.metaWait, Ev.startDone st csz cver =>
    some (HandleStartDone { s with metaOp := ⟨st, csz, cver⟩ } o)
  | Phase.readWait, Ev.readDone st n =>
    some (HandleReadDone { s with
      readOp := { s.readOp with status := st, dataBuf := some n } } o)
  | Phase.writeWait, Ev.writeDone st =>
    some (HandleWriteDone { s with
      writeOp := { s.writeOp with
        status := st
        numBytesIo := if 0 ≤ st then s.writeOp.numBytes else 0 } } o)
  | Phase.commitWait, Ev.commitDone st => some (HandleReplicationDone s st o)
  | _, _ => none

/-- Run a list of events through the machine; none if some event cannot
reach the instance in its current phase. -/
def runTrace (s : ReplState) (ph : Phase) : List (Ev × Oracle) → Option (ReplState × Phase)
  | [] => some (s, ph)
  | (e, o) :: rest =>
    match stepRepl s ph e o with
    | none => none
    | some (s', ph') => runTrace s' ph' rest

/-- The state of a freshly constructed ReplicatorImpl for an op
(Replicator.cc lines 216-241).  mChunkSize is uninitialized in the
source until HandleStartDone stores the metadata reply; it is 0 here and
is never read before then. -/
def initState (fid chunkId chunkVersion : Int) : ReplState :=
  { fileId := fid
    chunkId := chunkId
    chunkVersion := chunkVersion
    chunkSize := 0
    offset := 0
    done := false
    canceled := false
    metaOp := ⟨0, 0, 0⟩
    readOp := ⟨0, 0, 0, 0, none⟩
    writeOp := ⟨0, 0, 0, 0, none⟩
    targetVersion := chunkVersion
    ownerStatus := 0
    ownerVersion := chunkVersion
    supersededAtDone := none
    bufferBytesRequired := kDefaultReplicationReadSize
    log := [] }

/-- Environment contract for one event: a peer read delivers a
non-negative number of bytes and at most the number requested (spec §6:
short reads only at EOF, never overlong), and ChangeChunkVers returns 0
when queued and a negative error otherwise. -/
def wfStep (s : ReplState) (e : Ev) (o : Oracle) : Bool :=
  match e with
  | Ev.readDone _ n =>
    decide (0 ≤ n) && decide (n ≤ s.readOp.numBytes) && decide (o.ccvRes ≤ 0)
  | _ => decide (o.ccvRes ≤ 0)

/-- Environment contract along a trace. -/
def wfTrace (s : ReplState) (ph : Phase) : List (Ev × Oracle) → Bool
  | [] => true
  | (e, o) :: rest =>
    wfStep s e o &&
      (match stepRepl s ph e o with
        | none => true
        | some (s', ph') => wfTrace s' ph' rest)

end ReplicatorImpl

/- ## Effect-log extractors -/

/-- The WriteChunk submissions in the log, in order: (offset, numBytes). -/
def writesOf : List Eff → List (Int × Int)
  | [] => []
  | Eff.writeChunk off nb :: r => (off, nb) :: writesOf r
  | Eff.bufRequest _ :: r => writesOf r
  | Eff.peerMeta :: r => writesOf r
  | Eff.peerRead _ _ :: r => writesOf r
  | Eff.staleChunk _ :: r => writesOf r
  | Eff.allocChunk _ _ _ :: r => writesOf r
  | Eff.changeChunkVers _ _ _ :: r => writesOf r
  | Eff.replicationDone _ _ :: r => writesOf r
  | Eff.submitResponse _ _ :: r => writesOf r

/-- The ChangeChunkVers calls in the log: (chunkId, version, stable). -/
def commitsOf : List Eff → List (Int × Int × Bool)
  | [] => []
  | Eff.changeChunkVers c v st :: r => (c, v, st) :: commitsOf r
  | Eff.bufRequest _ :: r => commitsOf r
  | Eff.peerMeta :: r => commitsOf r
  | Eff.peerRead _ _ :: r => commitsOf r
  | Eff.staleChunk _ :: r => commitsOf r
  | Eff.allocChunk _ _ _ :: r => commitsOf r
  | Eff.writeChunk _ _ :: r => commitsOf r
  | Eff.replicationDone _ _ :: r => commitsOf r
  | Eff.submitResponse _ _ :: r => commitsOf r

/-- The SubmitOpResponse calls in the log: (status, chunkVersion). -/
def respsOf : List Eff → List (Int × Int)
  | [] => []
  | Eff.submitResponse st v :: r => (st, v) :: respsOf r
  | Eff.bufRequest _ :: r => respsOf r
  | Eff.peerMeta :: r => respsOf r
  | Eff.peerRead _ _ :: r => respsOf r
  | Eff.staleChunk _ :: r => respsOf r
  | Eff.allocChunk _ _ _ :: r => respsOf r
  | Eff.writeChunk _ _ :: r => respsOf r
  | Eff.changeChunkVers _ _ _ :: r => respsOf r
  | Eff.replicationDone _ _ :: r => respsOf r

/-- How many ReplicationDone notifications the log holds. -/
def notifyCount : List Eff → Nat
  | [] => 0
  | Eff.replicationDone _ _ :: r => notifyCount r + 1
  | Eff.bufRequest _ :: r => notifyCount r
  | Eff.peerMeta :: r => notifyCount r
  | Eff.peerRead _ _ :: r => notifyCount r
  | Eff.staleChunk _ :: r => notifyCount r
  | Eff.allocChunk _ _ _ :: r => notifyCount r
  | Eff.writeChunk _ _ :: r => notifyCount r
  | Eff.changeChunkVers _ _ _ :: r => notifyCount r
  | Eff.submitResponse _ _ :: r => notifyCount r

@[simp] theorem writesOf_append (l1 l2 : List Eff) :
    writesOf (l1 ++ l2) = writesOf l1 ++ writesOf l2 := by
  induction l1 with
  | nil => rfl
  | cons e r ih => cases e <;> simp [writesOf, ih]

@[simp] theorem commitsOf_append (l1 l2 : List Eff) :
    commitsOf (l1 ++ l2) = commitsOf l1 ++ commitsOf l2 := by
  induction l1 with
  | nil => rfl
  | cons e r ih => cases e <;> simp [commitsOf, ih]

@[simp] theorem respsOf_append (l1 l2 : List Eff) :
    respsOf (l1 ++ l2) = respsOf l1 ++ respsOf l2 := by
  induction l1 with
  | nil => rfl
  | cons e r ih => cases e <;> simp [respsOf, ih]

@[simp] theorem notifyCount_append (l1 l2 : List Eff) :
    notifyCount (l1 ++ l2) = notifyCount l1 + notifyCount l2 := by
  induction l1 with
  | nil => simp [notifyCount]
  | cons e r ih => cases e <;> (simp [notifyCount, ih]; try omega)

namespace ReplicatorImpl

/-- The log-shaped part of the machine invariant that is independent of
the phase. -/
structure LogInv (s : ReplState) : Prop where
  wChain : List.Chain' (fun a b : Int × Int => a.1 ≤ b.1) (writesOf s.log)
  wBound : ∀ w ∈ writesOf s.log,
    0 ≤ w.1 ∧ 0 < w.2 ∧ w.1 + w.2 ≤ s.chunkSize ∧ w.1 ≤ s.offset
  wAligned : ∀ w ∈ (writesOf s.log).dropLast, w.2 % CHECKSUM_BLOCKSIZE = 0
  commitsAll : ∀ c ∈ commitsOf s.log, c = (s.chunkId, s.chunkVersion, true)

/-- The full machine invariant, proved to hold at every quiescent point
of every well-formed trace. -/
structure Inv (s : ReplState) (ph : Phase) : Prop where
  offNN : 0 ≤ s.offset
  offLe : 0 ≤ s.chunkSize → s.offset ≤ s.chunkSize
  offAl : s.offset % CHECKSUM_BLOCKSIZE = 0 ∨ s.offset = s.chunkSize
  doneOff : s.done = true → s.offset = s.chunkSize
  logi : LogInv s
  early : ph = Phase.preRun ∨ ph = Phase.admitWait ∨ ph = Phase.metaWait →
    s.offset = 0 ∧ s.chunkSize = 0 ∧ writesOf s.log = [] ∧ s.done = false
  rdW : ph = Phase.readWait →
    s.readOp.offset = s.offset ∧
    s.readOp.numBytes = min (s.chunkSize - s.offset) kDefaultReplicationReadSize ∧
    s.offset < s.chunkSize
  wrW : ph = Phase.writeWait →
    s.writeOp.offset = s.offset ∧ 0 < s.writeOp.numBytes ∧
    s.offset + s.writeOp.numBytes ≤ s.chunkSize ∧
    (s.writeOp.numBytes % CHECKSUM_BLOCKSIZE = 0 ∨
      s.offset + s.writeOp.numBytes = s.chunkSize) ∧
    s.offset % CHECKSUM_BLOCKSIZE = 0
  tailInv : ph = Phase.writeWait →
    s.readOp.offset = s.writeOp.offset + s.writeOp.numBytes →
    0 < bufLen s.readOp.dataBuf →
    (bufLen s.readOp.dataBuf < CHECKSUM_BLOCKSIZE ∧
      s.readOp.offset + bufLen s.readOp.dataBuf = s.chunkSize ∧
      s.readOp.numBytes = bufLen s.readOp.dataBuf ∧
      0 ≤ s.readOp.status ∧
      s.writeOp.numBytes % CHECKSUM_BLOCKSIZE = 0)
  wLast : ∀ w, (writesOf s.log).getLast? = some w →
    w.2 % CHECKSUM_BLOCKSIZE ≠ 0 →
    (w.1 + w.2 = s.chunkSize ∧
      (ph = Phase.writeWait ∨ ph = Phase.commitWait ∨ ph = Phase.finished) ∧
      (ph = Phase.writeWait → s.writeOp.offset = w.1 ∧ s.writeOp.numBytes = w.2))
  commitPh : commitsOf s.log ≠ [] → ph = Phase.commitWait ∨ ph = Phase.finished
  commitW : ph = Phase.commitWait → s.done = true ∧ commitsOf s.log ≠ []
  pend : ph ≠ Phase.finished →
    respsOf s.log = [] ∧ notifyCount s.log = 0 ∧ s.supersededAtDone = none
  fin : ph = Phase.finished →
    respsOf s.log = [(s.ownerStatus, s.ownerVersion)] ∧
    (∃ b, s.supersededAtDone = some b ∧
      notifyCount s.log = (if b then 0 else 1))
  finVer : ph = Phase.finished → s.ownerVersion ≠ -1 →
    (s.ownerVersion = s.chunkVersion ∧ s.ownerStatus = 0 ∧ s.done = true ∧
      commitsOf s.log ≠ [])
  finNoC : ph = Phase.finished → commitsOf s.log = [] →
    (s.ownerVersion = -1 ∧ s.ownerStatus = -1)

end ReplicatorImpl

namespace ReplicatorImpl

@[simp] theorem HRD_snd (s : ReplState) (status : Int) (o : Oracle) :
    (HandleReplicationDone s status o).2 = Phase.finished := rfl

@[simp] theorem HRD_offset (s : ReplState) (status : Int) (o : Oracle) :
    (HandleReplicationDone s status o).1.offset = s.offset := rfl

@[simp] theorem HRD_chunkSize (s : ReplState) (status : Int) (o : Oracle) :
    (HandleReplicationDone s status o).1.chunkSize = s.chunkSize := rfl

@[simp] theorem HRD_chunkVersion (s : ReplState) (status : Int) (o : Oracle) :
    (HandleReplicationDone s status o).1.chunkVersion = s.chunkVersion := rfl

@[simp] theorem HRD_chunkId (s : ReplState) (status : Int) (o : Oracle) :
    (HandleReplicationDone s status o).1.chunkId = s.chunkId := rfl

@[simp] theorem HRD_done (s : ReplState) (status : Int) (o : Oracle) :
    (HandleReplicationDone s status o).1.done = s.done := rfl

@[simp] theorem HRD_ownerStatus (s : ReplState) (status : Int) (o : Oracle) :
    (HandleReplicationDone s status o).1.ownerStatus = ownerStatusOf status := rfl

@[simp] theorem HRD_ownerVersion (s : ReplState) (status : Int) (o : Oracle) :
    (HandleReplicationDone s status o).1.ownerVersion = ownerVersionOf s status := rfl

@[simp] theorem HRD_superseded (s : ReplState) (status : Int) (o : Oracle) :
    (HandleReplicationDone s status o).1.supersededAtDone =
      some (s.canceled && !o.registeredSelf) := rfl

@[simp] theorem writesOf_notifyEffs (s : ReplState) (status : Int) (o : Oracle) :
    writesOf (notifyEffsOf s status o) = [] := by
  unfold notifyEffsOf
  split <;> first | rfl | (split <;> rfl)

@[simp] theorem commitsOf_notifyEffs (s : ReplState) (status : Int) (o : Oracle) :
    commitsOf (notifyEffsOf s status o) = [] := by
  unfold notifyEffsOf
  split <;> first | rfl | (split <;> rfl)

@[simp] theorem respsOf_notifyEffs (s : ReplState) (status : Int) (o : Oracle) :
    respsOf (notifyEffsOf s status o) = [] := by
  unfold notifyEffsOf
  split <;> first | rfl | (split <;> rfl)

theorem notifyCount_notifyEffs (s : ReplState) (status : Int) (o : Oracle) :
    notifyCount (notifyEffsOf s status o) =
      (if (s.canceled && !o.registeredSelf) then 0 else 1) := by
  unfold notifyEffsOf
  cases hc : s.canceled <;> cases hr : o.registeredSelf <;>
    simp [notifyCount]

@[simp] theorem HRD_log (s : ReplState) (status : Int) (o : Oracle) :
    (HandleReplicationDone s status o).1.log =
      s.log ++ notifyEffsOf s status o ++
        [Eff.submitResponse (ownerStatusOf status) (ownerVersionOf s status)] := rfl

theorem HandleReplicationDone_inv (s : ReplState) (status : Int) (o : Oracle)
    (hoffNN : 0 ≤ s.offset) (hoffLe : 0 ≤ s.chunkSize → s.offset ≤ s.chunkSize)
    (hoffAl : s.offset % CHECKSUM_BLOCKSIZE = 0 ∨ s.offset = s.chunkSize)
    (hdone : s.done = true → s.offset = s.chunkSize)
    (hlogi : LogInv s)
    (hwLast : ∀ w, (writesOf s.log).getLast? = some w →
      w.2 % CHECKSUM_BLOCKSIZE ≠ 0 → w.1 + w.2 = s.chunkSize)
    (hpend : respsOf s.log = [] ∧ notifyCount s.log = 0 ∧
      s.supersededAtDone = none)
    (hOK : 0 ≤ status → commitsOf s.log ≠ [] ∧ (s.canceled = false → s.done = true)) :
    Inv (HandleReplicationDone s status o).1 (HandleReplicationDone s status o).2 := by
  obtain ⟨hresp, hnot, hsup⟩ := hpend
  obtain ⟨c1, c2, c3, c4⟩ := hlogi
  constructor
  case offNN => simpa using hoffNN
  case offLe => simpa using hoffLe
  case offAl => simpa using hoffAl
  case doneOff => simpa using hdone
  case logi =>
    constructor
    case wChain => simpa [writesOf] using c1
    case wBound => simpa [writesOf] using c2
    case wAligned => simpa [writesOf] using c3
    case commitsAll => simpa [commitsOf] using c4
  case early => simp
  case rdW => simp
  case wrW => simp
  case tailInv => simp
  case wLast =>
    intro w hw hal
    simp only [HRD_log, writesOf_append, writesOf_notifyEffs, HRD_snd] at hw ⊢
    have hw' : (writesOf s.log).getLast? = some w := by
      simpa [writesOf] using hw
    refine ⟨by simpa using hwLast w hw' hal, by simp, by simp⟩
  case commitPh => simp
  case commitW => simp
  case pend => simp
  case fin =>
    intro _
    constructor
    · simp [respsOf, hresp]
    · refine ⟨s.canceled && !o.registeredSelf, by simp, ?_⟩
      simp [hnot, notifyCount_notifyEffs, notifyCount]
  case finVer =>
    intro _ hne
    simp only [HRD_ownerVersion, ownerVersionOf] at hne ⊢
    split at hne
    case isTrue hcond =>
      obtain ⟨hcanc, hst⟩ := hcond
      obtain ⟨hcom, hdn⟩ := hOK hst
      have hcf : s.canceled = false := by
        cases hcc : s.canceled
        · rfl
        · exact absurd (by simp [hcc]) hcanc
      refine ⟨by simp [ownerVersionOf, hcanc, hst], ?_, by simpa using hdn hcf, ?_⟩
      · simp [ownerStatusOf, hst]
      · simp [commitsOf, hcom]
    case isFalse => exact absurd rfl hne
  case finNoC =>
    intro _ hcom
    simp only [HRD_log, commitsOf_append, commitsOf_notifyEffs, commitsOf,
      List.append_nil] at hcom
    have hst : status < 0 := by
      by_contra hge
      push_neg at hge
      exact (hOK hge).1 (by simpa using hcom)
    constructor
    · simp only [HRD_ownerVersion, ownerVersionOf]
      split
      · omega
      · rfl
    · simp only [HRD_ownerStatus, ownerStatusOf]
      split
      · omega
      · rfl

end ReplicatorImpl

namespace ReplicatorImpl

theorem Terminate_inv (s : ReplState) (o : Oracle)
    (hoffNN : 0 ≤ s.offset) (hoffLe : 0 ≤ s.chunkSize → s.offset ≤ s.chunkSize)
    (hoffAl : s.offset % CHECKSUM_BLOCKSIZE = 0 ∨ s.offset = s.chunkSize)
    (hdone : s.done = true → s.offset = s.chunkSize)
    (hlogi : LogInv s)
    (hwLast : ∀ w, (writesOf s.log).getLast? = some w →
      w.2 % CHECKSUM_BLOCKSIZE ≠ 0 → w.1 + w.2 = s.chunkSize)
    (hpend : respsOf s.log = [] ∧ notifyCount s.log = 0 ∧
      s.supersededAtDone = none)
    (hNoCommit : commitsOf s.log = [])
    (hccv : o.ccvRes ≤ 0) :
    Inv (Terminate s o).1 (Terminate s o).2 := by
  obtain ⟨c1, c2, c3, c4⟩ := hlogi
  unfold Terminate
  split
  case isTrue hg =>
    obtain ⟨hgd, hgc⟩ := hg
    split
    case isTrue hz =>
      constructor
      case offNN => exact hoffNN
      case offLe => exact hoffLe
      case offAl => exact hoffAl
      case doneOff => intro _; exact hdone hgd
      case logi =>
        constructor
        case wChain => simpa [writesOf] using c1
        case wBound => simpa [writesOf] using c2
        case wAligned => simpa [writesOf] using c3
        case commitsAll => simp [commitsOf, hNoCommit]
      case early => simp
      case rdW => simp
      case wrW => simp
      case tailInv => simp
      case wLast =>
        intro w hw hal
        have hw' : (writesOf s.log).getLast? = some w := by
          simpa [writesOf] using hw
        exact ⟨hwLast w hw' hal, by simp, by simp⟩
      case commitPh => intro _; exact Or.inl rfl
      case commitW =>
        intro _
        exact ⟨hgd, by simp [commitsOf, hNoCommit]⟩
      case pend =>
        intro _
        simpa [respsOf, notifyCount] using hpend
      case fin => simp
      case finVer => simp
      case finNoC => simp
    case isFalse hz =>
      apply HandleReplicationDone_inv <;>
        first
        | exact hoffNN
        | exact hoffLe
        | exact hoffAl
        | (intro h; exact hdone h)
        | skip
      case hlogi =>
        constructor
        case wChain => simpa [writesOf] using c1
        case wBound => simpa [writesOf] using c2
        case wAligned => simpa [writesOf] using c3
        case commitsAll => simp [commitsOf, hNoCommit]
      case hwLast =>
        intro w hw hal
        have hw' : (writesOf s.log).getLast? = some w := by
          simpa [writesOf] using hw
        exact hwLast w hw' hal
      case hpend => simpa [respsOf, notifyCount] using hpend
      case hOK => intro hge; omega
  case isFalse hg =>
    apply HandleReplicationDone_inv <;>
      first
      | exact hoffNN
      | exact hoffLe
      | exact hoffAl
      | (intro h; exact hdone h)
      | skip
    case hlogi => exact ⟨c1, c2, c3, c4⟩
    case hwLast => exact hwLast
    case hpend => exact hpend
    case hOK => intro hge; omega

end ReplicatorImpl

namespace ReplicatorImpl

theorem Read_inv (s : ReplState) (o : Oracle)
    (hoffNN : 0 ≤ s.offset) (hoffLe : 0 ≤ s.chunkSize → s.offset ≤ s.chunkSize)
    (hoffAl : s.offset % CHECKSUM_BLOCKSIZE = 0 ∨ s.offset = s.chunkSize)
    (hdone : s.done = true → s.offset = s.chunkSize)
    (hlogi : LogInv s)
    (hWL : ∀ w, (writesOf s.log).getLast? = some w →
      w.2 % CHECKSUM_BLOCKSIZE ≠ 0 →
      w.1 + w.2 = s.chunkSize ∧ s.offset = s.chunkSize)
    (hpend : respsOf s.log = [] ∧ notifyCount s.log = 0 ∧
      s.supersededAtDone = none)
    (hNoCommit : commitsOf s.log = [])
    (hccv : o.ccvRes ≤ 0) :
    Inv (Read s o).1 (Read s o).2 := by
  obtain ⟨c1, c2, c3, c4⟩ := hlogi
  unfold Read
  split
  case isTrue hg =>
    apply Terminate_inv
    case hoffNN => exact hoffNN
    case hoffLe => exact hoffLe
    case hoffAl => exact hoffAl
    case hdone =>
      intro h
      exact of_decide_eq_true (by simpa using h)
    case hlogi => exact ⟨c1, c2, c3, c4⟩
    case hwLast => exact fun w hw hal => (hWL w hw hal).1
    case hpend => exact hpend
    case hNoCommit => exact hNoCommit
    case hccv => exact hccv
  case isFalse hg =>
    have hlt : s.offset < s.chunkSize := by omega
    constructor
    case offNN => exact hoffNN
    case offLe => exact hoffLe
    case offAl => exact hoffAl
    case doneOff =>
      intro h
      exact hdone h
    case logi =>
      constructor
      case wChain => simpa [writesOf] using c1
      case wBound => simpa [writesOf] using c2
      case wAligned => simpa [writesOf] using c3
      case commitsAll => simpa [commitsOf] using c4
    case early => simp
    case rdW => exact fun _ => ⟨rfl, rfl, hlt⟩
    case wrW => simp
    case tailInv => simp
    case wLast =>
      intro w hw hal
      have hw' : (writesOf s.log).getLast? = some w := by
        simpa [writesOf] using hw
      exact absurd (hWL w hw' hal).2 (by omega)
    case commitPh =>
      intro h
      exfalso
      apply h
      simpa [commitsOf] using hNoCommit
    case commitW => simp
    case pend =>
      intro _
      simpa [respsOf, notifyCount] using hpend
    case fin => simp
    case finVer => simp
    case finNoC => simp

end ReplicatorImpl

namespace ReplicatorImpl

theorem HandleStartDone_inv (s : ReplState) (o : Oracle)
    (hoff0 : s.offset = 0) (hdone0 : s.done = false)
    (hwr0 : writesOf s.log = [])
    (hpend : respsOf s.log = [] ∧ notifyCount s.log = 0 ∧
      s.supersededAtDone = none)
    (hNoCommit : commitsOf s.log = [])
    (hccv : o.ccvRes ≤ 0) :
    Inv (HandleStartDone s o).1 (HandleStartDone s o).2 := by
  have hlogi0 : ∀ t : ReplState, writesOf t.log = [] → commitsOf t.log = [] →
      LogInv t := by
    intro t hw hc
    constructor
    · simp [hw]
    · simp [hw]
    · simp [hw]
    · simp [hc]
  have hwl0 : ∀ (t : ReplState), writesOf t.log = [] →
      ∀ w, (writesOf t.log).getLast? = some w →
        w.2 % CHECKSUM_BLOCKSIZE ≠ 0 → w.1 + w.2 = t.chunkSize := by
    intro t hw w hlast _
    rw [hw] at hlast
    cases hlast
  unfold HandleStartDone
  split
  case isTrue hg =>
    apply Terminate_inv
    case hoffNN => omega
    case hoffLe => intro _; omega
    case hoffAl => left; simp [hoff0, CHECKSUM_BLOCKSIZE]
    case hdone => intro h; rw [hdone0] at h; cases h
    case hlogi => exact hlogi0 s hwr0 hNoCommit
    case hwLast => exact hwl0 s hwr0
    case hpend => exact hpend
    case hNoCommit => exact hNoCommit
    case hccv => exact hccv
  case isFalse hg =>
    split
    case isTrue hbad =>
      apply Terminate_inv
      case hoffNN => simp [hoff0]
      case hoffLe => intro h; simpa [hoff0] using h
      case hoffAl => left; simp [hoff0, CHECKSUM_BLOCKSIZE]
      case hdone => intro h; simp only [ReplState.done] at h; rw [hdone0] at h; cases h
      case hlogi => exact hlogi0 _ hwr0 hNoCommit
      case hwLast => exact hwl0 _ hwr0
      case hpend => exact hpend
      case hNoCommit => exact hNoCommit
      case hccv => exact hccv
    case isFalse hok =>
      split
      case isTrue halloc =>
        apply Terminate_inv
        case hoffNN => simp [hoff0]
        case hoffLe => intro h; simpa [hoff0] using h
        case hoffAl => left; simp [hoff0, CHECKSUM_BLOCKSIZE]
        case hdone => intro h; simp only [ReplState.done] at h; rw [hdone0] at h; cases h
        case hlogi =>
          apply hlogi0
          · simp [writesOf, hwr0]
          · simp [commitsOf, hNoCommit]
        case hwLast =>
          apply hwl0
          simp [writesOf, hwr0]
        case hpend =>
          simpa [respsOf, notifyCount] using hpend
        case hNoCommit => simp [commitsOf, hNoCommit]
        case hccv => exact hccv
      case isFalse halloc =>
        apply Read_inv
        case hoffNN => simp [hoff0]
        case hoffLe => intro h; simpa [hoff0] using h
        case hoffAl => left; simp [hoff0, CHECKSUM_BLOCKSIZE]
        case hdone => intro h; simp only [ReplState.done] at h; rw [hdone0] at h; cases h
        case hlogi =>
          apply hlogi0
          · simp [writesOf, hwr0]
          · simp [commitsOf, hNoCommit]
        case hWL =>
          intro w hlast _
          rw [show writesOf (s.log ++ [Eff.staleChunk s.chunkId,
            Eff.allocChunk s.fileId s.chunkId 0]) = [] from by
              simp [writesOf, hwr0]] at hlast
          cases hlast
        case hpend =>
          simpa [respsOf, notifyCount] using hpend
        case hNoCommit => simp [commitsOf, hNoCommit]
        case hccv => exact hccv

end ReplicatorImpl

namespace ReplicatorImpl

@[simp] theorem bufLen_postReadOp (s : ReplState) :
    bufLen (postReadOp s).dataBuf = 0 := by
  unfold postReadOp bufLen
  cases s.writeOp.dataBuf <;> simp

theorem rStatus_short (s : ReplState)
    (hcanc : s.canceled = false) (hst : 0 ≤ rStatusOf s) :
    s.readOp.numBytes ≤ numRdOf s ∨ s.chunkSize ≤ s.offset + numRdOf s := by
  by_contra hcon
  push_neg at hcon
  obtain ⟨h1, h2⟩ := hcon
  unfold rStatusOf at hst
  split at hst
  · omega
  · split at hst
    · unfold EINVAL at hst
      omega
    · rename_i hns
      exact hns ⟨by simp [hcanc], h1, h2⟩

theorem HandleReadDone_inv (s : ReplState) (o : Oracle)
    (hoffNN : 0 ≤ s.offset)
    (hoffLe : s.offset ≤ s.chunkSize)
    (hoffAl : s.offset % CHECKSUM_BLOCKSIZE = 0 ∨ s.offset = s.chunkSize)
    (hdone : s.done = true → s.offset = s.chunkSize)
    (hnumNN : 0 ≤ numRdOf s)
    (hnumLe : numRdOf s ≤ s.readOp.numBytes)
    (hnb1 : 0 < s.readOp.numBytes)
    (hnbLe : s.offset + s.readOp.numBytes ≤ s.chunkSize)
    (hnbShape : s.readOp.numBytes =
        min (s.chunkSize - s.offset) kDefaultReplicationReadSize ∨
      s.offset + s.readOp.numBytes = s.chunkSize)
    (hlogi : LogInv s)
    (hWL : ∀ w, (writesOf s.log).getLast? = some w →
      w.2 % CHECKSUM_BLOCKSIZE ≠ 0 →
      w.1 + w.2 = s.chunkSize ∧ s.offset = s.chunkSize)
    (hpend : respsOf s.log = [] ∧ notifyCount s.log = 0 ∧
      s.supersededAtDone = none)
    (hNoCommit : commitsOf s.log = [])
    (hccv : o.ccvRes ≤ 0) :
    Inv (HandleReadDone s o).1 (HandleReadDone s o).2 := by
  have hCBpos : (0 : Int) < CHECKSUM_BLOCKSIZE := by decide
  have hCB : CHECKSUM_BLOCKSIZE = 65536 := rfl
  have hRD : kDefaultReplicationReadSize = 1048576 := by decide
  unfold HandleReadDone
  split
  case isTrue hg =>
    apply Terminate_inv
    case hoffNN => exact hoffNN
    case hoffLe => exact fun _ => hoffLe
    case hoffAl => exact hoffAl
    case hdone =>
      intro h
      exact (of_decide_eq_true h).1
    case hlogi => exact ⟨hlogi.1, hlogi.2, hlogi.3, hlogi.4⟩
    case hwLast => exact fun w hw hal => (hWL w hw hal).1
    case hpend => exact hpend
    case hNoCommit => exact hNoCommit
    case hccv => exact hccv
  case isFalse hg =>
    push_neg at hg
    obtain ⟨hcanc', hst', hne⟩ := hg
    have hcanc : s.canceled = false := by
      cases h : s.canceled
      · rfl
      · exact absurd (by simp [h]) hcanc'
    have hst : 0 ≤ rStatusOf s := by omega
    have hshort := rStatus_short s hcanc hst
    have hofflt : s.offset < s.chunkSize := lt_of_le_of_ne hoffLe hne
    have hpos : 0 < numRdOf s := by omega
    have hEnd : numRdOf s % CHECKSUM_BLOCKSIZE ≠ 0 →
        s.offset + numRdOf s = s.chunkSize := by
      intro hrem
      rcases hshort with hge | hend
      · have heq : numRdOf s = s.readOp.numBytes := le_antisymm hnumLe hge
        rcases hnbShape with hmin | hright
        · rcases le_total (s.chunkSize - s.offset) kDefaultReplicationReadSize
            with hm | hm
          · rw [min_eq_left hm] at hmin
            omega
          · rw [min_eq_right hm] at hmin
            exfalso
            apply hrem
            rw [heq, hmin, hRD, hCB]
            decide
        · omega
      · omega
    have hoffAl' : s.offset % CHECKSUM_BLOCKSIZE = 0 := hoffAl.resolve_right hne
    have hwAll : ∀ w ∈ writesOf s.log, w.2 % CHECKSUM_BLOCKSIZE = 0 := by
      intro w hw
      rcases List.eq_nil_or_concat (writesOf s.log) with hnil | ⟨l, a, hcat⟩
      · rw [hnil] at hw
        cases hw
      · rw [List.concat_eq_append] at hcat
        rw [hcat] at hw
        rcases List.mem_append.mp hw with hmem | hmem
        · apply hlogi.wAligned
          rw [hcat, List.dropLast_concat]
          exact hmem
        · have ha : w = a := by simpa using hmem
          subst ha
          by_contra hal
          have := (hWL w (by rw [hcat]; simp) hal).2
          omega
    have hsub : ∀ (r : ReadOpS) (w : WriteOpS),
        w.offset = s.offset →
        0 < w.numBytes →
        s.offset + w.numBytes ≤ s.chunkSize →
        (w.numBytes % CHECKSUM_BLOCKSIZE = 0 ∨
          s.offset + w.numBytes = s.chunkSize) →
        (r.offset = w.offset + w.numBytes → 0 < bufLen r.dataBuf →
          (bufLen r.dataBuf < CHECKSUM_BLOCKSIZE ∧
            r.offset + bufLen r.dataBuf = s.chunkSize ∧
            r.numBytes = bufLen r.dataBuf ∧ 0 ≤ r.status ∧
            w.numBytes % CHECKSUM_BLOCKSIZE = 0)) →
        Inv (submitWrite s r w o).1 (submitWrite s r w o).2 := by
      intro r w hwoff hwpos hwle hwal htl
      have hlogi2 : LogInv { s with readOp := r, writeOp := w, log := s.log ++ [Eff.writeChunk w.offset w.numBytes] } := by
        constructor
        case wChain =>
          simp only [writesOf_append]
          rw [List.chain'_append]
          refine ⟨hlogi.wChain, by simp [writesOf], ?_⟩
          intro x hx y hy
          simp only [writesOf, List.head?] at hy
          cases hy
          exact le_trans ((hlogi.wBound x (List.mem_of_mem_getLast? hx)).2.2.2)
            (le_of_eq hwoff.symm)
        case wBound =>
          intro v hv
          simp only [writesOf_append] at hv
          rcases List.mem_append.mp hv with hmem | hmem
          · exact hlogi.wBound v hmem
          · have : v = (w.offset, w.numBytes) := by
              simpa [writesOf] using hmem
            subst this
            refine ⟨?_, ?_, ?_, ?_⟩ <;> dsimp only <;> omega
        case wAligned =>
          intro v hv
          simp only [writesOf_append] at hv
          rw [show writesOf [Eff.writeChunk w.offset w.numBytes] =
            [(w.offset, w.numBytes)] from rfl, List.dropLast_concat] at hv
          exact hwAll v hv
        case commitsAll =>
          intro c hc
          apply hlogi.commitsAll
          simpa [commitsOf] using hc
      have hlast2 : ∀ v, (writesOf (s.log ++
          [Eff.writeChunk w.offset w.numBytes])).getLast? = some v →
          v.2 % CHECKSUM_BLOCKSIZE ≠ 0 → v.1 + v.2 = s.chunkSize := by
        intro v hv hal
        rw [writesOf_append, show writesOf [Eff.writeChunk w.offset w.numBytes] =
          [(w.offset, w.numBytes)] from rfl, List.getLast?_concat] at hv
        cases hv
        rcases hwal with h | h
        · exact absurd h hal
        · omega
      unfold submitWrite
      split
      case isTrue hwr =>
        apply Terminate_inv
        case hoffNN => exact hoffNN
        case hoffLe => exact fun _ => hoffLe
        case hoffAl => exact hoffAl
        case hdone => exact hdone
        case hlogi => exact hlogi2
        case hwLast => exact hlast2
        case hpend => simpa [respsOf, notifyCount] using hpend
        case hNoCommit => simpa [commitsOf] using hNoCommit
        case hccv => exact hccv
      case isFalse hwr =>
        constructor
        case offNN => exact hoffNN
        case offLe => exact fun _ => hoffLe
        case offAl => exact hoffAl
        case doneOff => exact hdone
        case logi => exact hlogi2
        case early => simp
        case rdW => simp
        case wrW =>
          intro _
          refine ⟨hwoff, hwpos, ?_, ?_, hoffAl'⟩ <;> dsimp only <;> omega
        case tailInv =>
          intro _ h1 h2
          exact htl h1 h2
        case wLast =>
          intro v hv hal
          refine ⟨hlast2 v hv hal, Or.inl rfl, ?_⟩
          intro _
          rw [writesOf_append, show writesOf [Eff.writeChunk w.offset w.numBytes] =
            [(w.offset, w.numBytes)] from rfl, List.getLast?_concat] at hv
          cases hv
          exact ⟨rfl, rfl⟩
        case commitPh =>
          intro h
          exfalso
          apply h
          simpa [commitsOf] using hNoCommit
        case commitW => simp
        case pend =>
          intro _
          simpa [respsOf, notifyCount] using hpend
        case fin => simp
        case finVer => simp
        case finNoC => simp
    split
    case isTrue hbig =>
      split
      case isTrue htail =>
        obtain ⟨hrem, hend⟩ := htail
        have hremlt : numRdOf s % CHECKSUM_BLOCKSIZE < CHECKSUM_BLOCKSIZE :=
          Int.emod_lt_of_pos _ hCBpos
        apply hsub
        case a => rfl
        · show 0 < numRdOf s - numRdOf s % CHECKSUM_BLOCKSIZE
          omega
        · show s.offset + (numRdOf s - numRdOf s % CHECKSUM_BLOCKSIZE) ≤ s.chunkSize
          omega
        · left
          show (numRdOf s - numRdOf s % CHECKSUM_BLOCKSIZE) % CHECKSUM_BLOCKSIZE = 0
          rw [hCB] at *
          omega
        · intro h1 h2
          refine ⟨?_, ?_, rfl, ?_, ?_⟩
          · simpa [bufLen] using hremlt
          · show s.offset + (numRdOf s - numRdOf s % CHECKSUM_BLOCKSIZE) +
              bufLen (some (numRdOf s % CHECKSUM_BLOCKSIZE)) = s.chunkSize
            simp only [bufLen]
            omega
          · show 0 ≤ (postReadOp s).status
            simpa [postReadOp] using hst
          · show (numRdOf s - numRdOf s % CHECKSUM_BLOCKSIZE) %
              CHECKSUM_BLOCKSIZE = 0
            rw [hCB] at *
            omega
      case isFalse hnotail =>
        have hrem0 : numRdOf s % CHECKSUM_BLOCKSIZE = 0 := by
          by_contra hrem
          have h0 : 0 ≤ numRdOf s % CHECKSUM_BLOCKSIZE :=
            Int.emod_nonneg _ (by omega)
          exact hnotail ⟨by omega, hEnd hrem⟩
        apply hsub
        case a => rfl
        · show 0 < numRdOf s - numRdOf s % CHECKSUM_BLOCKSIZE
          omega
        · show s.offset + (numRdOf s - numRdOf s % CHECKSUM_BLOCKSIZE) ≤ s.chunkSize
          omega
        · left
          show (numRdOf s - numRdOf s % CHECKSUM_BLOCKSIZE) % CHECKSUM_BLOCKSIZE = 0
          rw [hCB] at *
          omega
        · intro _ h2
          rw [bufLen_postReadOp] at h2
          omega
    case isFalse hsmall =>
      apply hsub
      case a => rfl
      · show 0 < numRdOf s
        omega
      · show s.offset + numRdOf s ≤ s.chunkSize
        omega
      · show numRdOf s % CHECKSUM_BLOCKSIZE = 0 ∨ s.offset + numRdOf s = s.chunkSize
        by_cases hrem : numRdOf s % CHECKSUM_BLOCKSIZE = 0
        · exact Or.inl hrem
        · exact Or.inr (hEnd hrem)
      · intro _ h2
        rw [bufLen_postReadOp] at h2
        omega

end ReplicatorImpl

namespace ReplicatorImpl

theorem HandleWriteDone_inv (s : ReplState) (o : Oracle)
    (hoffNN : 0 ≤ s.offset)
    (hoffAl : s.offset % CHECKSUM_BLOCKSIZE = 0 ∨ s.offset = s.chunkSize)
    (hdone : s.done = true → s.offset = s.chunkSize)
    (hlogi : LogInv s)
    (hwrW : s.writeOp.offset = s.offset ∧ 0 < s.writeOp.numBytes ∧
      s.offset + s.writeOp.numBytes ≤ s.chunkSize ∧
      (s.writeOp.numBytes % CHECKSUM_BLOCKSIZE = 0 ∨
        s.offset + s.writeOp.numBytes = s.chunkSize) ∧
      s.offset % CHECKSUM_BLOCKSIZE = 0)
    (htail : s.readOp.offset = s.writeOp.offset + s.writeOp.numBytes →
      0 < bufLen s.readOp.dataBuf →
      (bufLen s.readOp.dataBuf < CHECKSUM_BLOCKSIZE ∧
        s.readOp.offset + bufLen s.readOp.dataBuf = s.chunkSize ∧
        s.readOp.numBytes = bufLen s.readOp.dataBuf ∧
        0 ≤ s.readOp.status ∧
        s.writeOp.numBytes % CHECKSUM_BLOCKSIZE = 0))
    (hwLast : ∀ w, (writesOf s.log).getLast? = some w →
      w.2 % CHECKSUM_BLOCKSIZE ≠ 0 →
      (w.1 + w.2 = s.chunkSize ∧
        (s.writeOp.offset = w.1 ∧ s.writeOp.numBytes = w.2)))
    (hnbio : s.writeOp.numBytesIo = s.writeOp.numBytes ∨
      (s.writeOp.numBytesIo = 0 ∧ s.writeOp.status < 0))
    (hpend : respsOf s.log = [] ∧ notifyCount s.log = 0 ∧
      s.supersededAtDone = none)
    (hNoCommit : commitsOf s.log = [])
    (hccv : o.ccvRes ≤ 0) :
    Inv (HandleWriteDone s o).1 (HandleWriteDone s o).2 := by
  obtain ⟨hw1, hw2, hw3, hw4, hw5⟩ := hwrW
  unfold HandleWriteDone
  split
  case isTrue hg =>
    apply Terminate_inv
    case hoffNN => exact hoffNN
    case hoffLe => intro _; omega
    case hoffAl => exact hoffAl
    case hdone => exact hdone
    case hlogi => exact hlogi
    case hwLast => exact fun w hw hal => (hwLast w hw hal).1
    case hpend => exact hpend
    case hNoCommit => exact hNoCommit
    case hccv => exact hccv
  case isFalse hg =>
    push_neg at hg
    obtain ⟨hcanc', hst'⟩ := hg
    have hio : s.writeOp.numBytesIo = s.writeOp.numBytes := by
      rcases hnbio with h | ⟨_, h⟩
      · exact h
      · omega
    have hlogi1 : LogInv { s with offset := s.offset + s.writeOp.numBytesIo } := by
      constructor
      case wChain => exact hlogi.wChain
      case wBound =>
        intro v hv
        have := hlogi.wBound v hv
        refine ⟨this.1, this.2.1, this.2.2.1, ?_⟩
        dsimp only
        omega
      case wAligned => exact hlogi.wAligned
      case commitsAll => exact hlogi.commitsAll
    have hWL1 : ∀ w, (writesOf s.log).getLast? = some w →
        w.2 % CHECKSUM_BLOCKSIZE ≠ 0 →
        w.1 + w.2 = s.chunkSize ∧
          s.offset + s.writeOp.numBytesIo = s.chunkSize := by
      intro w hw hal
      obtain ⟨he, hm1, hm2⟩ := hwLast w hw hal
      constructor
      · exact he
      · omega
    split
    case isTrue hflush =>
      obtain ⟨hf1, hf2⟩ := hflush
      have hteq : s.readOp.offset = s.writeOp.offset + s.writeOp.numBytes := by
        omega
      obtain ⟨ht1, ht2, ht3, ht4, ht5⟩ := htail hteq hf2
      apply HandleReadDone_inv
      case hoffNN => dsimp only; omega
      case hoffLe => dsimp only; omega
      case hoffAl =>
        left
        dsimp only
        simp only [CHECKSUM_BLOCKSIZE] at *
        omega
      case hdone =>
        intro h
        have := hdone h
        dsimp only
        omega
      case hnumNN =>
        show 0 ≤ numRdOf { s with offset := s.offset + s.writeOp.numBytesIo }
        unfold numRdOf
        dsimp only
        omega
      case hnumLe =>
        show numRdOf _ ≤ _
        unfold numRdOf
        dsimp only
        omega
      case hnb1 => dsimp only; omega
      case hnbLe => dsimp only; omega
      case hnbShape => right; dsimp only; omega
      case hlogi => exact hlogi1
      case hWL => exact hWL1
      case hpend => exact hpend
      case hNoCommit => exact hNoCommit
      case hccv => exact hccv
    case isFalse hnoflush =>
      apply Read_inv
      case hoffNN => dsimp only; omega
      case hoffLe => intro _; dsimp only; omega
      case hoffAl =>
        dsimp only
        rcases hw4 with h | h
        · left
          simp only [CHECKSUM_BLOCKSIZE] at *
          omega
        · right
          omega
      case hdone =>
        intro h
        have := hdone h
        dsimp only
        omega
      case hlogi => exact hlogi1
      case hWL => exact hWL1
      case hpend => exact hpend
      case hNoCommit => exact hNoCommit
      case hccv => exact hccv

end ReplicatorImpl

namespace ReplicatorImpl

theorem Start_inv (s : ReplState)
    (hoff0 : s.offset = 0) (hcs0 : s.chunkSize = 0)
    (hwr0 : writesOf s.log = []) (hdone0 : s.done = false)
    (hpend : respsOf s.log = [] ∧ notifyCount s.log = 0 ∧
      s.supersededAtDone = none)
    (hNoCommit : commitsOf s.log = []) :
    Inv (Start s).1 (Start s).2 := by
  unfold Start
  constructor
  case offNN => simp [hoff0]
  case offLe => intro _; simp [hoff0, hcs0]
  case offAl => left; simp [hoff0, CHECKSUM_BLOCKSIZE]
  case doneOff => intro h; dsimp only at h; rw [hdone0] at h; cases h
  case logi =>
    constructor
    case wChain => simp [writesOf, hwr0]
    case wBound => intro v hv; simp [writesOf, hwr0] at hv
    case wAligned => intro v hv; simp [writesOf, hwr0] at hv
    case commitsAll => intro c hc; simp [commitsOf, hNoCommit] at hc
  case early =>
    intro _
    refine ⟨hoff0, hcs0, by simp [writesOf, hwr0], hdone0⟩
  case rdW => simp
  case wrW => simp
  case tailInv => simp
  case wLast =>
    intro w hw _
    rw [show writesOf (s.log ++ [Eff.peerMeta]) = [] from by
      simp [writesOf, hwr0]] at hw
    cases hw
  case commitPh =>
    intro h
    exfalso
    apply h
    simp [commitsOf, hNoCommit]
  case commitW => simp
  case pend => intro _; simpa [respsOf, notifyCount] using hpend
  case fin => simp
  case finVer => simp
  case finNoC => simp

theorem admitWait_inv (s : ReplState)
    (hoff0 : s.offset = 0) (hcs0 : s.chunkSize = 0)
    (hwr0 : writesOf s.log = []) (hdone0 : s.done = false)
    (hpend : respsOf s.log = [] ∧ notifyCount s.log = 0 ∧
      s.supersededAtDone = none)
    (hNoCommit : commitsOf s.log = []) :
    Inv s Phase.admitWait := by
  constructor
  case offNN => simp [hoff0]
  case offLe => intro _; simp [hoff0, hcs0]
  case offAl => left; simp [hoff0, CHECKSUM_BLOCKSIZE]
  case doneOff => intro h; rw [hdone0] at h; cases h
  case logi =>
    constructor
    case wChain => simp [hwr0]
    case wBound => intro v hv; simp [hwr0] at hv
    case wAligned => intro v hv; simp [hwr0] at hv
    case commitsAll => intro c hc; simp [hNoCommit] at hc
  case early => intro _; exact ⟨hoff0, hcs0, hwr0, hdone0⟩
  case rdW => simp
  case wrW => simp
  case tailInv => simp
  case wLast =>
    intro w hw _
    rw [hwr0] at hw
    cases hw
  case commitPh =>
    intro h
    exact absurd hNoCommit h
  case commitW => simp
  case pend => intro _; exact hpend
  case fin => simp
  case finVer => simp
  case finNoC => simp

theorem RunAdmit_inv (s : ReplState) (o : Oracle)
    (hoff0 : s.offset = 0) (hcs0 : s.chunkSize = 0)
    (hwr0 : writesOf s.log = []) (hdone0 : s.done = false)
    (hpend : respsOf s.log = [] ∧ notifyCount s.log = 0 ∧
      s.supersededAtDone = none)
    (hNoCommit : commitsOf s.log = [])
    (hccv : o.ccvRes ≤ 0) :
    Inv (RunAdmit s o).1 (RunAdmit s o).2 := by
  unfold RunAdmit
  split
  case isTrue =>
    apply Terminate_inv
    case hoffNN => simp [hoff0]
    case hoffLe => intro _; simp [hoff0]; omega
    case hoffAl => left; simp [hoff0, CHECKSUM_BLOCKSIZE]
    case hdone => intro h; dsimp only at h; rw [hdone0] at h; cases h
    case hlogi =>
      constructor
      case wChain => simp [writesOf, hwr0]
      case wBound => intro v hv; simp [writesOf, hwr0] at hv
      case wAligned => intro v hv; simp [writesOf, hwr0] at hv
      case commitsAll => intro c hc; simp [commitsOf, hNoCommit] at hc
    case hwLast =>
      intro w hw _
      rw [show writesOf (s.log ++ [Eff.bufRequest
        (max 16384 s.bufferBytesRequired)]) = [] from by
        simp [writesOf, hwr0]] at hw
      cases hw
    case hpend => simpa [respsOf, notifyCount] using hpend
    case hNoCommit => simpa [commitsOf] using hNoCommit
    case hccv => exact hccv
  case isFalse =>
    split
    case isTrue =>
      apply Start_inv
      case hoff0 => exact hoff0
      case hcs0 => exact hcs0
      case hwr0 => simp [writesOf, hwr0]
      case hdone0 => exact hdone0
      case hpend => simpa [respsOf, notifyCount] using hpend
      case hNoCommit => simpa [commitsOf] using hNoCommit
    case isFalse =>
      apply admitWait_inv
      case hoff0 => exact hoff0
      case hcs0 => exact hcs0
      case hwr0 => simp [writesOf, hwr0]
      case hdone0 => exact hdone0
      case hpend => simpa [respsOf, notifyCount] using hpend
      case hNoCommit => simpa [commitsOf] using hNoCommit

end ReplicatorImpl

namespace ReplicatorImpl

theorem noCommit_of_phase (s : ReplState) (ph : Phase) (hInv : Inv s ph)
    (h1 : ph ≠ Phase.commitWait) (h2 : ph ≠ Phase.finished) :
    commitsOf s.log = [] := by
  by_contra h
  rcases hInv.commitPh h with hc | hc
  · exact h1 hc
  · exact h2 hc

theorem cancel_inv (t : ReplState) (p : Phase) (h : Inv t p) :
    Inv { t with canceled := true } p := by
  constructor
  case offNN => exact h.offNN
  case offLe => exact h.offLe
  case offAl => exact h.offAl
  case doneOff => exact h.doneOff
  case logi => exact ⟨h.logi.1, h.logi.2, h.logi.3, h.logi.4⟩
  case early => exact h.early
  case rdW => exact h.rdW
  case wrW => exact h.wrW
  case tailInv => exact h.tailInv
  case wLast => exact h.wLast
  case commitPh => exact h.commitPh
  case commitW => exact h.commitW
  case pend => exact h.pend
  case fin => exact h.fin
  case finVer => exact h.finVer
  case finNoC => exact h.finNoC

theorem stepRepl_inv (s : ReplState) (ph : Phase) (e : Ev) (o : Oracle)
    (hInv : Inv s ph) (hwf : wfStep s e o = true) :
    ∀ r, stepRepl s ph e o = some r → Inv r.1 r.2 := by
  intro r hstep
  have hccv : o.ccvRes ≤ 0 := by
    unfold wfStep at hwf
    cases e <;> simp_all
  cases ph <;> cases e <;>
    simp only [stepRepl] at hstep <;>
    try cases hstep
  case preRun.runEv =>
    obtain ⟨hoff0, hcs0, hwr0, hdone0⟩ := hInv.early (Or.inl rfl)
    exact RunAdmit_inv s o hoff0 hcs0 hwr0 hdone0
      (hInv.pend (by simp)) (noCommit_of_phase s _ hInv (by simp) (by simp)) hccv
  case admitWait.granted =>
    obtain ⟨hoff0, hcs0, hwr0, hdone0⟩ := hInv.early (Or.inr (Or.inl rfl))
    exact Start_inv s hoff0 hcs0 hwr0 hdone0
      (hInv.pend (by simp)) (noCommit_of_phase s _ hInv (by simp) (by simp))
  case admitWait.cancel =>
    apply Terminate_inv
    case hoffNN => exact hInv.offNN
    case hoffLe => exact hInv.offLe
    case hoffAl => exact hInv.offAl
    case hdone => exact hInv.doneOff
    case hlogi => exact ⟨hInv.logi.1, hInv.logi.2, hInv.logi.3, hInv.logi.4⟩
    case hwLast => exact fun w hw hal => (hInv.wLast w hw hal).1
    case hpend => exact hInv.pend (by simp)
    case hNoCommit => exact noCommit_of_phase s _ hInv (by simp) (by simp)
    case hccv => exact hccv
  case metaWait.cancel => exact cancel_inv s _ hInv
  case readWait.cancel => exact cancel_inv s _ hInv
  case writeWait.cancel => exact cancel_inv s _ hInv
  case commitWait.cancel => exact cancel_inv s _ hInv
  case finished.cancel => exact cancel_inv s _ hInv
  case metaWait.startDone st csz cver =>
    obtain ⟨hoff0, hcs0, hwr0, hdone0⟩ := hInv.early (Or.inr (Or.inr rfl))
    exact HandleStartDone_inv _ o hoff0 hdone0 hwr0
      (hInv.pend (by simp)) (noCommit_of_phase s _ hInv (by simp) (by simp)) hccv
  case readWait.readDone st n =>
    obtain ⟨hr1, hr2, hr3⟩ := hInv.rdW rfl
    have hwfr : 0 ≤ n ∧ n ≤ s.readOp.numBytes := by
      unfold wfStep at hwf
      simp at hwf
      exact ⟨hwf.1.1, hwf.1.2⟩
    have hRD : kDefaultReplicationReadSize = 1048576 := by decide
    apply HandleReadDone_inv
    case hoffNN => exact hInv.offNN
    case hoffLe => exact le_of_lt hr3
    case hoffAl => exact hInv.offAl
    case hdone => exact hInv.doneOff
    case hnumNN => simpa [numRdOf, bufLen] using hwfr.1
    case hnumLe => simpa [numRdOf, bufLen] using hwfr.2
    case hnb1 =>
      show 0 < s.readOp.numBytes
      rw [hr2]
      rcases le_total (s.chunkSize - s.offset) kDefaultReplicationReadSize
        with hm | hm
      · rw [min_eq_left hm]; omega
      · rw [min_eq_right hm]; omega
    case hnbLe =>
      show s.offset + s.readOp.numBytes ≤ s.chunkSize
      rw [hr2]
      have := min_le_left (s.chunkSize - s.offset) kDefaultReplicationReadSize
      omega
    case hnbShape => exact Or.inl hr2
    case hlogi => exact ⟨hInv.logi.1, hInv.logi.2, hInv.logi.3, hInv.logi.4⟩
    case hWL =>
      intro w hw hal
      obtain ⟨_, hph, _⟩ := hInv.wLast w hw hal
      rcases hph with h | h | h <;> simp at h
    case hpend => exact hInv.pend (by simp)
    case hNoCommit => exact noCommit_of_phase s _ hInv (by simp) (by simp)
    case hccv => exact hccv
  case writeWait.writeDone st =>
    obtain ⟨hw1, hw2, hw3, hw4, hw5⟩ := hInv.wrW rfl
    apply HandleWriteDone_inv
    case hoffNN => exact hInv.offNN
    case hoffAl => exact hInv.offAl
    case hdone => exact hInv.doneOff
    case hlogi => exact ⟨hInv.logi.1, hInv.logi.2, hInv.logi.3, hInv.logi.4⟩
    case hwrW => exact ⟨hw1, hw2, hw3, hw4, hw5⟩
    case htail => exact hInv.tailInv rfl
    case hwLast =>
      exact fun w hw hal =>
        ⟨(hInv.wLast w hw hal).1, (hInv.wLast w hw hal).2.2 rfl⟩
    case hnbio =>
      show (if 0 ≤ st then s.writeOp.numBytes else 0) = s.writeOp.numBytes ∨ _
      split
      case isTrue => exact Or.inl rfl
      case isFalse h => exact Or.inr ⟨rfl, by dsimp only; omega⟩
    case hpend => exact hInv.pend (by simp)
    case hNoCommit => exact noCommit_of_phase s _ hInv (by simp) (by simp)
    case hccv => exact hccv
  case commitWait.commitDone st =>
    apply HandleReplicationDone_inv
    case hoffNN => exact hInv.offNN
    case hoffLe => exact hInv.offLe
    case hoffAl => exact hInv.offAl
    case hdone => exact hInv.doneOff
    case hlogi => exact hInv.logi
    case hwLast => exact fun w hw hal => (hInv.wLast w hw hal).1
    case hpend => exact hInv.pend (by simp)
    case hOK =>
      intro _
      exact ⟨(hInv.commitW rfl).2, fun _ => (hInv.commitW rfl).1⟩

theorem runTrace_inv (tr : List (Ev × Oracle)) :
    ∀ s ph, Inv s ph → wfTrace s ph tr = true →
      ∀ r, runTrace s ph tr = some r → Inv r.1 r.2 := by
  induction tr with
  | nil =>
    intro s ph hInv _ r hr
    unfold runTrace at hr
    cases hr
    exact hInv
  | cons p rest ih =>
    obtain ⟨e, o⟩ := p
    intro s ph hInv hwf r hr
    unfold runTrace at hr
    unfold wfTrace at hwf
    rcases hstep : stepRepl s ph e o with _ | ⟨s2, p2⟩
    · rw [hstep] at hr
      cases hr
    · rw [hstep] at hr hwf
      simp only [Bool.and_eq_true] at hwf
      exact ih s2 p2 (stepRepl_inv s ph e o hInv hwf.1 (s2, p2) hstep) hwf.2 r hr

theorem initState_inv (f c v : Int) : Inv (initState f c v) Phase.preRun := by
  refine ⟨?_, ?_, ?_, ?_, ⟨?_, ?_, ?_, ?_⟩, ?_, ?_, ?_, ?_, ?_, ?_, ?_, ?_, ?_, ?_, ?_⟩ <;>
    simp [initState, writesOf, commitsOf, respsOf, notifyCount, CHECKSUM_BLOCKSIZE]

end ReplicatorImpl

/- ## Registry lemmas -/

theorem regFind_eq_none_iff (r : List (Int × Nat)) (key : Int) :
    regFind r key = none ↔ key ∉ r.map Prod.fst := by
  induction r with
  | nil => simp [regFind]
  | cons p rest ih =>
    obtain ⟨c, v⟩ := p
    by_cases hc : c = key
    · subst hc
      simp [regFind]
    · simp [regFind, hc, ih, Ne.symm hc]

theorem regSet_keys (r : List (Int × Nat)) (key : Int) (nv : Nat) :
    (regSet r key nv).map Prod.fst = r.map Prod.fst := by
  induction r with
  | nil => rfl
  | cons p rest ih =>
    obtain ⟨c, v⟩ := p
    by_cases hc : c = key
    · subst hc
      simp [regSet]
    · simp [regSet, hc, ih]

theorem regSet_find_self (r : List (Int × Nat)) (key : Int) (nv : Nat)
    (h : regFind r key ≠ none) : regFind (regSet r key nv) key = some nv := by
  induction r with
  | nil => simp [regFind] at h
  | cons p rest ih =>
    obtain ⟨c, v⟩ := p
    by_cases hc : c = key
    · subst hc
      simp [regSet, regFind]
    · simp only [regFind, if_neg hc] at h
      simp [regSet, regFind, hc, ih h]

theorem regSet_find_other (r : List (Int × Nat)) (key k' : Int) (nv : Nat)
    (h : k' ≠ key) : regFind (regSet r key nv) k' = regFind r k' := by
  induction r with
  | nil => rfl
  | cons p rest ih =>
    obtain ⟨c, v⟩ := p
    by_cases hc : c = key
    · subst hc
      simp [regSet, regFind, Ne.symm h]
    · simp [regSet, regFind, hc, ih]

theorem regErase_keys_subset (r : List (Int × Nat)) (key : Int) :
    ∀ x ∈ (regErase r key).map Prod.fst, x ∈ r.map Prod.fst := by
  induction r with
  | nil => simp [regErase]
  | cons p rest ih =>
    obtain ⟨c, v⟩ := p
    by_cases hc : c = key
    · subst hc
      intro x hx
      simp [regErase] at hx
      simp [hx]
    · intro x hx
      simp [regErase, hc] at hx
      rcases hx with hx | hx
      · simp [hx]
      · simp only [List.map_cons, List.mem_cons]
        refine Or.inr (ih x ?_)
        simpa using hx

theorem regErase_nodup (r : List (Int × Nat)) (key : Int)
    (h : regKeysNodup r) : regKeysNodup (regErase r key) := by
  induction r with
  | nil => exact h
  | cons p rest ih =>
    obtain ⟨c, v⟩ := p
    unfold regKeysNodup at h ⊢
    simp only [List.map_cons, List.nodup_cons] at h
    by_cases hc : c = key
    · subst hc
      simpa [regErase] using h.2
    · simp only [regErase, if_neg hc, List.map_cons, List.nodup_cons]
      refine ⟨fun hx => h.1 (regErase_keys_subset rest key c hx), ih h.2⟩

theorem regErase_find_self (r : List (Int × Nat)) (key : Int)
    (h : regKeysNodup r) : regFind (regErase r key) key = none := by
  induction r with
  | nil => rfl
  | cons p rest ih =>
    obtain ⟨c, v⟩ := p
    unfold regKeysNodup at h
    simp only [List.map_cons, List.nodup_cons] at h
    by_cases hc : c = key
    · subst hc
      rw [regFind_eq_none_iff]
      simpa [regErase] using h.1
    · simp only [regErase, if_neg hc, regFind, if_neg hc]
      exact ih h.2

theorem regErase_find_other (r : List (Int × Nat)) (key k' : Int)
    (h : k' ≠ key) : regFind (regErase r key) k' = regFind r k' := by
  induction r with
  | nil => rfl
  | cons p rest ih =>
    obtain ⟨c, v⟩ := p
    by_cases hc : c = key
    · subst hc
      simp [regErase, regFind, Ne.symm h]
    · simp [regErase, regFind, hc, ih]

/-- Claim C2: the registry (a map keyed by chunkId) holds at most one
entry per chunk id at every quiescent point — regKeysNodup is preserved —
and when Run is called for a chunk that already has a registered
instance, the incoming instance cancels the incumbent (whose synchronous
destruction is the otherWaiting case), reattempts insertion, and ends up
as the sole registered instance for that chunkId; entries of other chunk
ids are untouched; and the incoming instance terminates immediately if
and only if the collision resolved to self-identity. -/
theorem c2_registry_supersession (reg : List (Int × Nat)) (chunkId : Int)
    (self : Nat) (otherWaiting : Bool) (hnd : regKeysNodup reg) :
    regFind (ReplicatorImpl.RunRegister reg chunkId self otherWaiting).1 chunkId =
      some self ∧
    regKeysNodup (ReplicatorImpl.RunRegister reg chunkId self otherWaiting).1 ∧
    ((ReplicatorImpl.RunRegister reg chunkId self otherWaiting).2 = true ↔
      regFind reg chunkId = some self) ∧
    (∀ k, k ≠ chunkId →
      regFind (ReplicatorImpl.RunRegister reg chunkId self otherWaiting).1 k =
        regFind reg k) := by
  unfold ReplicatorImpl.RunRegister regInsert
  rcases hfind : regFind reg chunkId with _ | other
  · simp only [hfind]
    refine ⟨by simp [regFind], ?_, by simp [hfind], ?_⟩
    · unfold regKeysNodup at hnd ⊢
      simp only [List.map_cons, List.nodup_cons]
      exact ⟨(regFind_eq_none_iff reg chunkId).mp hfind, hnd⟩
    · intro k hk
      simp [regFind, Ne.symm hk]
  · simp only [hfind]
    by_cases hself : other = self
    · subst hself
      rw [if_pos rfl]
      refine ⟨regSet_find_self reg chunkId other (by simp [hfind]), ?_, by simp [hfind], ?_⟩
      · unfold regKeysNodup at hnd ⊢
        rw [regSet_keys]
        exact hnd
      · intro k hk
        exact regSet_find_other reg chunkId k other hk
    · simp only [if_neg hself]
      cases otherWaiting
      · simp only [Bool.false_eq_true, if_false, hfind]
        refine ⟨regSet_find_self reg chunkId self (by simp [hfind]), ?_,
          by simp [hfind, hself], ?_⟩
        · unfold regKeysNodup at hnd ⊢
          rw [regSet_keys]
          exact hnd
        · intro k hk
          exact regSet_find_other reg chunkId k self hk
      · simp only [if_true]
        rw [regErase_find_self reg chunkId hnd]
        refine ⟨by simp [regFind], ?_, by simp [hfind, hself], ?_⟩
        · unfold regKeysNodup at *
          simp only [List.map_cons, List.nodup_cons]
          refine ⟨?_, regErase_nodup reg chunkId hnd⟩
          rw [← regFind_eq_none_iff]
          exact regErase_find_self reg chunkId hnd
        · intro k hk
          simp only [regFind, if_neg (Ne.symm hk)]
          exact regErase_find_other reg chunkId k hk

/-- Claim C2, witness: a registry holding instance 1 for chunk 5; Run of
instance 2 for chunk 5 supersedes it. -/
theorem c2_registry_supersession_witness :
    regKeysNodup [((5 : Int), (1 : Nat))] ∧
    (regFind (ReplicatorImpl.RunRegister [((5 : Int), (1 : Nat))] 5 2 false).1 5 =
        some 2 ∧
      regKeysNodup (ReplicatorImpl.RunRegister [((5 : Int), (1 : Nat))] 5 2 false).1 ∧
      ((ReplicatorImpl.RunRegister [((5 : Int), (1 : Nat))] 5 2 false).2 = true ↔
        regFind [((5 : Int), (1 : Nat))] 5 = some 2) ∧
      (∀ k, k ≠ (5 : Int) →
        regFind (ReplicatorImpl.RunRegister [((5 : Int), (1 : Nat))] 5 2 false).1 k =
          regFind [((5 : Int), (1 : Nat))] k)) := by
  constructor
  · simp [regKeysNodup]
  · exact c2_registry_supersession [((5 : Int), (1 : Nat))] 5 2 false
      (by simp [regKeysNodup])

/-- Claim C4: for a ReplicateChunkOp whose location is not valid, if any
of the RS geometry checks fails (chunkOffset not a multiple of
CHUNK_SIZE, striper type not RS, numStripes ≤ 0, numRecoveryStripes ≤ 0,
stripeSize outside [KFS_MIN_STRIPE_SIZE, KFS_MAX_STRIPE_SIZE], CHUNK_SIZE
not divisible by stripeSize, stripeSize not divisible by
STRIPE_ALIGNMENT, non-positive meta port), the dispatcher sets the op
status to -EINVAL, increments the recovery-error counter, constructs no
RSRecoverer instance, and submits the response itself (no retry). -/
theorem c4_dispatch_validation (L : RsLimits) (ctrs : Counters)
    (op : ReplicateChunkOp) (peerFound : Bool)
    (hloc : op.locationValid = false)
    (hfail : op.chunkOffset % CHUNKSIZE ≠ 0 ∨ op.striperType ≠ L.rsType ∨
      op.numStripes ≤ 0 ∨ op.numRecoveryStripes ≤ 0 ∨
      op.stripeSize < L.minStripeSize ∨ L.maxStripeSize < op.stripeSize ∨
      CHUNKSIZE % op.stripeSize ≠ 0 ∨ op.stripeSize % L.stripeAlignment ≠ 0 ∨
      op.locationPort ≤ 0) :
    (Replicator.Run L ctrs op peerFound).op.status = -EINVAL ∧
    (Replicator.Run L ctrs op peerFound).ctrs.mRecoveryErrorCount =
      ctrs.mRecoveryErrorCount + 1 ∧
    (Replicator.Run L ctrs op peerFound).ctrs.mRecoveryCount =
      ctrs.mRecoveryCount + 1 ∧
    (Replicator.Run L ctrs op peerFound).constructed = false ∧
    (Replicator.Run L ctrs op peerFound).responded = true := by
  have hinv : rsInvalid L op := by
    unfold rsInvalid
    tauto
  unfold Replicator.Run
  rw [if_neg (by simp [hloc]), if_pos hinv]
  exact ⟨rfl, rfl, rfl, rfl, rfl⟩

/-- Claim C4, witness: an op with invalid location and zero stripes is
rejected with -EINVAL. -/
theorem c4_dispatch_validation_witness :
    ((⟨1, 2, 3, false, 20000, 0, 2, 0, 3, 65536, 0, 0, ""⟩ :
        ReplicateChunkOp).locationValid = false ∧
      ((⟨1, 2, 3, false, 20000, 0, 2, 0, 3, 65536, 0, 0, ""⟩ :
        ReplicateChunkOp).numStripes ≤ 0)) ∧
    ((Replicator.Run ⟨2, 4096, 67108864, 4096⟩ ⟨0, 0, 0, 0⟩
        ⟨1, 2, 3, false, 20000, 0, 2, 0, 3, 65536, 0, 0, ""⟩ true).op.status =
        -EINVAL ∧
      (Replicator.Run ⟨2, 4096, 67108864, 4096⟩ ⟨0, 0, 0, 0⟩
        ⟨1, 2, 3, false, 20000, 0, 2, 0, 3, 65536, 0, 0, ""⟩ true).ctrs.mRecoveryErrorCount =
        (0 : Int) + 1 ∧
      (Replicator.Run ⟨2, 4096, 67108864, 4096⟩ ⟨0, 0, 0, 0⟩
        ⟨1, 2, 3, false, 20000, 0, 2, 0, 3, 65536, 0, 0, ""⟩ true).ctrs.mRecoveryCount =
        (0 : Int) + 1 ∧
      (Replicator.Run ⟨2, 4096, 67108864, 4096⟩ ⟨0, 0, 0, 0⟩
        ⟨1, 2, 3, false, 20000, 0, 2, 0, 3, 65536, 0, 0, ""⟩ true).constructed = false ∧
      (Replicator.Run ⟨2, 4096, 67108864, 4096⟩ ⟨0, 0, 0, 0⟩
        ⟨1, 2, 3, false, 20000, 0, 2, 0, 3, 65536, 0, 0, ""⟩ true).responded = true) := by
  refine ⟨⟨rfl, by decide⟩, ?_⟩
  exact c4_dispatch_validation ⟨2, 4096, 67108864, 4096⟩ ⟨0, 0, 0, 0⟩
    ⟨1, 2, 3, false, 20000, 0, 2, 0, 3, 65536, 0, 0, ""⟩ true rfl
    (Or.inr (Or.inr (Or.inl (by decide))))

namespace RSReplicatorImpl

theorem GetGcd_dvd (a b : Int) : GetGcd a b ∣ a ∧ GetGcd a b ∣ b := by
  induction a, b using GetGcd.induct with
  | case1 a =>
    rw [GetGcd]
    simp
  | case2 a b h ih =>
    rw [GetGcd, if_neg h]
    obtain ⟨ih1, ih2⟩ := ih
    constructor
    · have : b * (a / b) + a % b = a := Int.ediv_add_emod a b
      calc GetGcd b (a % b) ∣ b * (a / b) + a % b :=
        dvd_add (Dvd.dvd.mul_right ih1 _) ih2
      _ = a := this
    · exact ih1

theorem GetGcd_pos (a b : Int) : 0 < a → 0 ≤ b → 0 < GetGcd a b := by
  induction a, b using GetGcd.induct with
  | case1 a =>
    intro ha _
    rw [GetGcd]
    simpa using ha
  | case2 a b h ih =>
    intro _ hb
    rw [GetGcd, if_neg h]
    exact ih (lt_of_le_of_ne hb (Ne.symm h)) (Int.emod_nonneg a h)

theorem GetLcm_pos (nl nr : Int) (hl : 0 < nl) (hr : 0 < nr) :
    0 < GetLcm nl nr := by
  unfold GetLcm
  rw [if_neg (by omega)]
  have hg : 0 < GetGcd nl nr := GetGcd_pos nl nr hl (le_of_lt hr)
  have hdvd : GetGcd nl nr ∣ nl := (GetGcd_dvd nl nr).1
  have hq : nl / GetGcd nl nr * GetGcd nl nr = nl := Int.ediv_mul_cancel hdvd
  have hqpos : 0 < nl / GetGcd nl nr := by
    by_contra hle
    push_neg at hle
    nlinarith
  positivity

theorem GetLcm_dvd_left (nl nr : Int) (hl : 0 < nl) (hr : 0 < nr) :
    nl ∣ GetLcm nl nr := by
  unfold GetLcm
  rw [if_neg (by omega)]
  obtain ⟨k, hk⟩ := (GetGcd_dvd nl nr).2
  have hdvd : GetGcd nl nr ∣ nl := (GetGcd_dvd nl nr).1
  have hq : nl / GetGcd nl nr * GetGcd nl nr = nl := Int.ediv_mul_cancel hdvd
  refine ⟨k, ?_⟩
  calc nl / GetGcd nl nr * nr = nl / GetGcd nl nr * (GetGcd nl nr * k) := by rw [← hk]
  _ = nl / GetGcd nl nr * GetGcd nl nr * k := by ring
  _ = nl * k := by rw [hq]

theorem GetLcm_dvd_right (nl nr : Int) : nr ∣ GetLcm nl nr := by
  unfold GetLcm
  split
  · exact dvd_zero nr
  · exact dvd_mul_left nr _

theorem aligned_down_le (x d : Int) (hd : 0 < d) : x / d * d ≤ x :=
  Int.ediv_mul_le x (by omega)

theorem aligned_down_pos (x d : Int) (hd : 0 < d) (hle : d ≤ x) :
    0 < x / d * d := by
  have h1 : 1 ≤ x / d := by
    rw [Int.le_ediv_iff_mul_le hd]
    omega
  nlinarith

theorem aligned_down_dvd (x d : Int) : d ∣ x / d * d := dvd_mul_left d (x / d)

end RSReplicatorImpl

namespace RSReplicatorImpl

/-- The intermediate `size` of GetReadSize (Replicator.cc lines 984-989):
max(CHECKSUM_BLOCKSIZE, min(maxReadSize, per-client quota floored to a
checksum block)). -/
def rsReadBase (maxReadSize quota numStripes : Int) : Int :=
  max CHECKSUM_BLOCKSIZE (min maxReadSize
    (quota / max 1 (numStripes + 1) / CHECKSUM_BLOCKSIZE * CHECKSUM_BLOCKSIZE))

theorem GetReadSize_eq (maxReadSize stripeSize ioBufSize quota numStripes : Int) :
    GetReadSize maxReadSize stripeSize ioBufSize quota numStripes =
      if rsReadBase maxReadSize quota numStripes ≤ stripeSize then
        rsReadBase maxReadSize quota numStripes
      else if GetLcm CHECKSUM_BLOCKSIZE stripeSize >
          rsReadBase maxReadSize quota numStripes then
        if GetLcm ioBufSize stripeSize > rsReadBase maxReadSize quota numStripes then
          GetLcm ioBufSize stripeSize
        else
          rsReadBase maxReadSize quota numStripes / GetLcm ioBufSize stripeSize *
            GetLcm ioBufSize stripeSize
      else
        rsReadBase maxReadSize quota numStripes / GetLcm CHECKSUM_BLOCKSIZE stripeSize *
          GetLcm CHECKSUM_BLOCKSIZE stripeSize := rfl

theorem rsReadBase_mul (maxReadSize quota numStripes : Int)
    (hmaxAl : maxReadSize % CHECKSUM_BLOCKSIZE = 0) :
    CHECKSUM_BLOCKSIZE ∣ rsReadBase maxReadSize quota numStripes := by
  unfold rsReadBase
  rcases max_choice CHECKSUM_BLOCKSIZE (min maxReadSize
      (quota / max 1 (numStripes + 1) / CHECKSUM_BLOCKSIZE * CHECKSUM_BLOCKSIZE))
    with hmx | hmx <;> rw [hmx]
  rcases min_choice maxReadSize
      (quota / max 1 (numStripes + 1) / CHECKSUM_BLOCKSIZE * CHECKSUM_BLOCKSIZE)
    with hmn | hmn <;> rw [hmn]
  · exact Int.dvd_of_emod_eq_zero hmaxAl
  · exact aligned_down_dvd _ _

theorem rsReadBase_ge (maxReadSize quota numStripes : Int) :
    CHECKSUM_BLOCKSIZE ≤ rsReadBase maxReadSize quota numStripes :=
  le_max_left _ _

theorem rsReadBase_le (maxReadSize quota numStripes : Int)
    (hmax : CHECKSUM_BLOCKSIZE ≤ maxReadSize) :
    rsReadBase maxReadSize quota numStripes ≤ maxReadSize :=
  max_le hmax (min_le_left _ _)

end RSReplicatorImpl

/-- Claim C7 (amended): under GetReadSize's asserted preconditions
(maxRead a positive multiple of CHECKSUM_BLOCKSIZE, stripeSize > 0, and a
positive io buffer size), the returned read size is always positive; it
is at most maxRead whenever the lcm-as-is fallback branch is not taken;
it is a multiple of CHECKSUM_BLOCKSIZE when it comes from the size-return
branch or from the lcm(CHECKSUM_BLOCKSIZE, stripeSize) alignment branch,
while in the lcm(ioBufSize, stripeSize) alignment branch it is only
guaranteed to be a multiple of that LCM; and the computation follows the
stated steps (size returned unchanged when size ≤ stripeSize, the LCM
returned as-is in the fallback).  The original claim, that the result is
a multiple of CHECKSUM_BLOCKSIZE in every non-fallback branch, is refuted
by the counterexample theorem. -/
theorem c7_read_size (maxReadSize stripeSize ioBufSize quota numStripes : Int)
    (hmax : CHECKSUM_BLOCKSIZE ≤ maxReadSize)
    (hmaxAl : maxReadSize % CHECKSUM_BLOCKSIZE = 0)
    (hss : 0 < stripeSize) (hio : 0 < ioBufSize) :
    0 < RSReplicatorImpl.GetReadSize maxReadSize stripeSize ioBufSize quota numStripes ∧
    ((RSReplicatorImpl.rsReadBase maxReadSize quota numStripes ≤ stripeSize ∨
      RSReplicatorImpl.GetLcm CHECKSUM_BLOCKSIZE stripeSize ≤
        RSReplicatorImpl.rsReadBase maxReadSize quota numStripes ∨
      RSReplicatorImpl.GetLcm ioBufSize stripeSize ≤
        RSReplicatorImpl.rsReadBase maxReadSize quota numStripes) →
      RSReplicatorImpl.GetReadSize maxReadSize stripeSize ioBufSize quota numStripes ≤
        maxReadSize) ∧
    ((RSReplicatorImpl.rsReadBase maxReadSize quota numStripes ≤ stripeSize ∨
      RSReplicatorImpl.GetLcm CHECKSUM_BLOCKSIZE stripeSize ≤
        RSReplicatorImpl.rsReadBase maxReadSize quota numStripes) →
      RSReplicatorImpl.GetReadSize maxReadSize stripeSize ioBufSize quota numStripes %
        CHECKSUM_BLOCKSIZE = 0) ∧
    (stripeSize < RSReplicatorImpl.rsReadBase maxReadSize quota numStripes →
      RSReplicatorImpl.rsReadBase maxReadSize quota numStripes <
        RSReplicatorImpl.GetLcm CHECKSUM_BLOCKSIZE stripeSize →
      RSReplicatorImpl.GetLcm ioBufSize stripeSize ≤
        RSReplicatorImpl.rsReadBase maxReadSize quota numStripes →
      RSReplicatorImpl.GetReadSize maxReadSize stripeSize ioBufSize quota numStripes %
        RSReplicatorImpl.GetLcm ioBufSize stripeSize = 0) ∧
    (RSReplicatorImpl.rsReadBase maxReadSize quota numStripes ≤ stripeSize →
      RSReplicatorImpl.GetReadSize maxReadSize stripeSize ioBufSize quota numStripes =
        RSReplicatorImpl.rsReadBase maxReadSize quota numStripes) ∧
    (stripeSize < RSReplicatorImpl.rsReadBase maxReadSize quota numStripes →
      RSReplicatorImpl.rsReadBase maxReadSize quota numStripes <
        RSReplicatorImpl.GetLcm CHECKSUM_BLOCKSIZE stripeSize →
      RSReplicatorImpl.rsReadBase maxReadSize quota numStripes <
        RSReplicatorImpl.GetLcm ioBufSize stripeSize →
      RSReplicatorImpl.GetReadSize maxReadSize stripeSize ioBufSize quota numStripes =
        RSReplicatorImpl.GetLcm ioBufSize stripeSize) := by
  have hCBpos : (0 : Int) < CHECKSUM_BLOCKSIZE := by decide
  have hge := RSReplicatorImpl.rsReadBase_ge maxReadSize quota numStripes
  have hle := RSReplicatorImpl.rsReadBase_le maxReadSize quota numStripes hmax
  have hdvd := RSReplicatorImpl.rsReadBase_mul maxReadSize quota numStripes hmaxAl
  have hl1pos := RSReplicatorImpl.GetLcm_pos CHECKSUM_BLOCKSIZE stripeSize hCBpos hss
  have hl2pos := RSReplicatorImpl.GetLcm_pos ioBufSize stripeSize hio hss
  have hl1CB := RSReplicatorImpl.GetLcm_dvd_left CHECKSUM_BLOCKSIZE stripeSize hCBpos hss
  rw [RSReplicatorImpl.GetReadSize_eq]
  refine ⟨?_, ?_, ?_, ?_, ?_, ?_⟩
  · split_ifs with h1 h2 h3
    · omega
    · exact hl2pos
    · exact RSReplicatorImpl.aligned_down_pos _ _ hl2pos (by omega)
    · exact RSReplicatorImpl.aligned_down_pos _ _ hl1pos (by omega)
  · intro hcond
    split_ifs with h1 h2 h3
    · omega
    · omega
    · have := RSReplicatorImpl.aligned_down_le
        (RSReplicatorImpl.rsReadBase maxReadSize quota numStripes)
        (RSReplicatorImpl.GetLcm ioBufSize stripeSize) hl2pos
      omega
    · have := RSReplicatorImpl.aligned_down_le
        (RSReplicatorImpl.rsReadBase maxReadSize quota numStripes)
        (RSReplicatorImpl.GetLcm CHECKSUM_BLOCKSIZE stripeSize) hl1pos
      omega
  · intro hcond
    split_ifs with h1 h2 h3
    · exact Int.emod_eq_zero_of_dvd hdvd
    · omega
    · omega
    · exact Int.emod_eq_zero_of_dvd
        (dvd_trans hl1CB (RSReplicatorImpl.aligned_down_dvd _ _))
  · intro hx1 hx2 hx3
    split_ifs <;>
      first
      | omega
      | exact Int.emod_eq_zero_of_dvd (RSReplicatorImpl.aligned_down_dvd _ _)
  · intro hx
    split_ifs
    rfl
  · intro hx1 hx2 hx3
    split_ifs <;> first | rfl | omega

/-- Claim C7, counterexample to the claim as stated: with maxRead =
1 MiB (a positive multiple of CHECKSUM_BLOCKSIZE), stripeSize = 49152,
ioBufSize = 4096, quota = 131072 and numStripes = 1, the computed size is
65536, exceeds the stripe size, lcm(CHECKSUM_BLOCKSIZE, 49152) = 196608
exceeds the size, and lcm(4096, 49152) = 49152 does not — so the
non-fallback lcm(ioBufSize, stripeSize) alignment branch is taken — yet
the result 49152 is not a multiple of CHECKSUM_BLOCKSIZE. -/
theorem c7_read_size_counterexample :
    (1048576 : Int) % CHECKSUM_BLOCKSIZE = 0 ∧
    CHECKSUM_BLOCKSIZE ≤ (1048576 : Int) ∧
    (0 : Int) < 49152 ∧ (0 : Int) < 4096 ∧
    RSReplicatorImpl.rsReadBase 1048576 131072 1 = 65536 ∧
    RSReplicatorImpl.GetLcm CHECKSUM_BLOCKSIZE 49152 = 196608 ∧
    RSReplicatorImpl.GetLcm 4096 49152 = 49152 ∧
    RSReplicatorImpl.GetReadSize 1048576 49152 4096 131072 1 = 49152 ∧
    (49152 : Int) % CHECKSUM_BLOCKSIZE ≠ 0 := by
  refine ⟨by decide, by decide, by decide, by decide, by decide, ?_, ?_, ?_, by decide⟩
  · set_option maxRecDepth 16000 in
      simp [RSReplicatorImpl.GetLcm, RSReplicatorImpl.GetGcd, CHECKSUM_BLOCKSIZE]
  · set_option maxRecDepth 16000 in
      simp [RSReplicatorImpl.GetLcm, RSReplicatorImpl.GetGcd]
  · set_option maxRecDepth 16000 in
      simp [RSReplicatorImpl.GetReadSize, RSReplicatorImpl.GetLcm,
        RSReplicatorImpl.GetGcd, CHECKSUM_BLOCKSIZE]

/-- Claim C7, witness for the amended theorem: default 1 MiB maxRead,
stripeSize 65536 (so lcm(CHECKSUM_BLOCKSIZE, stripeSize) = 65536 ≤ size),
io buffers of 4096 bytes, a 4 MiB quota and 3 stripes. -/
theorem c7_read_size_witness :
    (CHECKSUM_BLOCKSIZE ≤ (1048576 : Int) ∧
      (1048576 : Int) % CHECKSUM_BLOCKSIZE = 0 ∧
      (0 : Int) < 65536 ∧ (0 : Int) < 4096) ∧
    0 < RSReplicatorImpl.GetReadSize 1048576 65536 4096 4194304 3 ∧
    RSReplicatorImpl.GetReadSize 1048576 65536 4096 4194304 3 ≤ 1048576 ∧
    RSReplicatorImpl.GetReadSize 1048576 65536 4096 4194304 3 %
      CHECKSUM_BLOCKSIZE = 0 := by
  have h := c7_read_size 1048576 65536 4096 4194304 3
    (by decide) (by decide) (by decide) (by decide)
  have hl1 : RSReplicatorImpl.GetLcm CHECKSUM_BLOCKSIZE 65536 = 65536 := by
    set_option maxRecDepth 16000 in
      simp [RSReplicatorImpl.GetLcm, RSReplicatorImpl.GetGcd, CHECKSUM_BLOCKSIZE]
  have hbase : RSReplicatorImpl.rsReadBase 1048576 4194304 3 = 1048576 := by decide
  refine ⟨⟨by decide, by decide, by decide, by decide⟩, h.1, ?_, ?_⟩
  · exact h.2.1 (Or.inr (Or.inl (by rw [hl1, hbase]; decide)))
  · exact h.2.2.1 (Or.inr (by rw [hl1, hbase]; decide))

/-- Claim C10: under the preconditions asserted in GetReadSize (the
configured max read size is at least one checksum block and a multiple of
CHECKSUM_BLOCKSIZE, stripeSize > 0) together with the asserted relation
CHECKSUM_BLOCKSIZE % ioBufSize == 0 (and a positive io buffer size),
GetReadSize returns a positive value divisible by the default io buffer
size in every branch, so the assert
mReadSize % IOBufferData::GetDefaultBufferSize() == 0 in the
RSReplicatorImpl constructor (Replicator.cc line 693) never fails. -/
theorem c10_read_size_iobuf (maxReadSize stripeSize ioBufSize quota numStripes : Int)
    (_hmax : CHECKSUM_BLOCKSIZE ≤ maxReadSize)
    (hmaxAl : maxReadSize % CHECKSUM_BLOCKSIZE = 0)
    (hss : 0 < stripeSize) (hio : 0 < ioBufSize)
    (hcbio : CHECKSUM_BLOCKSIZE % ioBufSize = 0) :
    0 < RSReplicatorImpl.GetReadSize maxReadSize stripeSize ioBufSize quota numStripes ∧
    RSReplicatorImpl.GetReadSize maxReadSize stripeSize ioBufSize quota numStripes %
      ioBufSize = 0 := by
  have hCBpos : (0 : Int) < CHECKSUM_BLOCKSIZE := by decide
  have hge := RSReplicatorImpl.rsReadBase_ge maxReadSize quota numStripes
  have hdvd := RSReplicatorImpl.rsReadBase_mul maxReadSize quota numStripes hmaxAl
  have hl1pos := RSReplicatorImpl.GetLcm_pos CHECKSUM_BLOCKSIZE stripeSize hCBpos hss
  have hl2pos := RSReplicatorImpl.GetLcm_pos ioBufSize stripeSize hio hss
  have hl1CB := RSReplicatorImpl.GetLcm_dvd_left CHECKSUM_BLOCKSIZE stripeSize hCBpos hss
  have hl2io := RSReplicatorImpl.GetLcm_dvd_left ioBufSize stripeSize hio hss
  have hioCB : ioBufSize ∣ CHECKSUM_BLOCKSIZE := Int.dvd_of_emod_eq_zero hcbio
  rw [RSReplicatorImpl.GetReadSize_eq]
  split_ifs with h1 h2 h3
  · exact ⟨by omega, Int.emod_eq_zero_of_dvd (dvd_trans hioCB hdvd)⟩
  · exact ⟨hl2pos, Int.emod_eq_zero_of_dvd hl2io⟩
  · exact ⟨RSReplicatorImpl.aligned_down_pos _ _ hl2pos (by omega),
      Int.emod_eq_zero_of_dvd
        (dvd_trans hl2io (RSReplicatorImpl.aligned_down_dvd _ _))⟩
  · exact ⟨RSReplicatorImpl.aligned_down_pos _ _ hl1pos (by omega),
      Int.emod_eq_zero_of_dvd
        (dvd_trans (dvd_trans hioCB hl1CB)
          (RSReplicatorImpl.aligned_down_dvd _ _))⟩

/-- Claim C10, witness: the default configuration, 1 MiB max read, a
65536-byte stripe, 4096-byte io buffers, a 4 MiB quota, 3 stripes. -/
theorem c10_read_size_iobuf_witness :
    (CHECKSUM_BLOCKSIZE ≤ (1048576 : Int) ∧
      (1048576 : Int) % CHECKSUM_BLOCKSIZE = 0 ∧
      (0 : Int) < 65536 ∧ (0 : Int) < 4096 ∧
      CHECKSUM_BLOCKSIZE % (4096 : Int) = 0) ∧
    0 < RSReplicatorImpl.GetReadSize 1048576 65536 4096 4194304 3 ∧
    RSReplicatorImpl.GetReadSize 1048576 65536 4096 4194304 3 % 4096 = 0 :=
  ⟨⟨by decide, by decide, by decide, by decide, by decide⟩,
    c10_read_size_iobuf 1048576 65536 4096 4194304 3
      (by decide) (by decide) (by decide) (by decide) (by decide)⟩

/-- Claim C1 (amended): for every well-formed callback trace of one
replication instance that reaches completion, every ChangeChunkVers call
in the log is for this chunk with stable = true and carries exactly
mChunkVersion — the version captured from the metadata completion (the
peer-reported version for plain replication, equal to the meta-server
targetVersion only when the metadata reply repeats it; the RS variant
feeds targetVersion into this field); when the op reports a version other
than -1, the instance succeeded (status 0, done set, which entails
offset == chunkSize) and the reported version is that committed
mChunkVersion; and when no ChangeChunkVers was ever initiated the op
reports chunkVersion -1 and status -1.  The original claim — that the
committed and reported version equals the meta-server-supplied
targetVersion — is refuted by the counterexample theorem. -/
theorem c1_commit_version (fid cid targetVersion : Int) (tr : List (Ev × Oracle))
    (hwf : ReplicatorImpl.wfTrace (ReplicatorImpl.initState fid cid targetVersion)
      Phase.preRun tr = true) :
    match ReplicatorImpl.runTrace (ReplicatorImpl.initState fid cid targetVersion)
        Phase.preRun tr with
    | some (s, ph) => ph = Phase.finished →
        ((∀ cv ∈ commitsOf s.log, cv = (s.chunkId, s.chunkVersion, true)) ∧
          (s.ownerVersion ≠ -1 →
            s.ownerVersion = s.chunkVersion ∧ s.ownerStatus = 0 ∧
            s.done = true ∧ s.offset = s.chunkSize ∧ commitsOf s.log ≠ []) ∧
          (commitsOf s.log = [] → s.ownerVersion = -1 ∧ s.ownerStatus = -1))
    | none => True := by
  rcases hres : ReplicatorImpl.runTrace (ReplicatorImpl.initState fid cid targetVersion)
      Phase.preRun tr with _ | ⟨s, ph⟩
  · trivial
  · have hInv := ReplicatorImpl.runTrace_inv tr _ _
      (ReplicatorImpl.initState_inv fid cid targetVersion) hwf (s, ph) hres
    intro hfin
    refine ⟨hInv.logi.commitsAll, ?_, hInv.finNoC hfin⟩
    intro hne
    obtain ⟨h1, h2, h3, h4⟩ := hInv.finVer hfin hne
    exact ⟨h1, h2, h3, hInv.doneOff h3, h4⟩

/-- Claim C1, counterexample to the claim as stated: target version 5,
while the peer's metadata reply reports version 7 with chunk size 0; the
instance succeeds (status 0, done, not canceled), commits version 7
stable and reports chunkVersion 7 — not the meta-server-supplied
targetVersion 5, to which no commit happens. -/
theorem c1_commit_version_counterexample :
    ReplicatorImpl.wfTrace (ReplicatorImpl.initState 1 11 5) Phase.preRun
      [(Ev.runEv, ⟨false, true, 0, 0, 0, true⟩),
       (Ev.startDone 0 0 7, ⟨false, true, 0, 0, 0, true⟩),
       (Ev.commitDone 0, ⟨false, true, 0, 0, 0, true⟩)] = true ∧
    (ReplicatorImpl.runTrace (ReplicatorImpl.initState 1 11 5) Phase.preRun
      [(Ev.runEv, ⟨false, true, 0, 0, 0, true⟩),
       (Ev.startDone 0 0 7, ⟨false, true, 0, 0, 0, true⟩),
       (Ev.commitDone 0, ⟨false, true, 0, 0, 0, true⟩)]).map
      (fun p => (p.2, p.1.targetVersion, p.1.done, p.1.canceled,
        p.1.ownerStatus, p.1.ownerVersion,
        decide (Eff.changeChunkVers 11 7 true ∈ p.1.log),
        decide (Eff.changeChunkVers 11 5 true ∈ p.1.log))) =
      some (Phase.finished, 5, true, false, 0, 7, true, false) := by
  constructor
  · decide
  · rfl

/-- Claim C1, witness for the amended theorem: a successful replication
of a 65537-byte chunk whose metadata reply carries the target version 5;
the log commits (11, 5, stable) once and the op reports version 5. -/
theorem c1_commit_version_witness :
    ReplicatorImpl.wfTrace (ReplicatorImpl.initState 1 11 5) Phase.preRun
      [(Ev.runEv, ⟨false, true, 0, 0, 0, true⟩),
       (Ev.startDone 0 65537 5, ⟨false, true, 0, 0, 0, true⟩),
       (Ev.readDone 0 65537, ⟨false, true, 0, 0, 0, true⟩),
       (Ev.writeDone 0, ⟨false, true, 0, 0, 0, true⟩),
       (Ev.writeDone 0, ⟨false, true, 0, 0, 0, true⟩),
       (Ev.commitDone 0, ⟨false, true, 0, 0, 0, true⟩)] = true ∧
    (match ReplicatorImpl.runTrace (ReplicatorImpl.initState 1 11 5) Phase.preRun
        [(Ev.runEv, ⟨false, true, 0, 0, 0, true⟩),
         (Ev.startDone 0 65537 5, ⟨false, true, 0, 0, 0, true⟩),
         (Ev.readDone 0 65537, ⟨false, true, 0, 0, 0, true⟩),
         (Ev.writeDone 0, ⟨false, true, 0, 0, 0, true⟩),
         (Ev.writeDone 0, ⟨false, true, 0, 0, 0, true⟩),
         (Ev.commitDone 0, ⟨false, true, 0, 0, 0, true⟩)] with
      | some (s, ph) => ph = Phase.finished →
          ((∀ cv ∈ commitsOf s.log, cv = (s.chunkId, s.chunkVersion, true)) ∧
            (s.ownerVersion ≠ -1 →
              s.ownerVersion = s.chunkVersion ∧ s.ownerStatus = 0 ∧
              s.done = true ∧ s.offset = s.chunkSize ∧ commitsOf s.log ≠ []) ∧
            (commitsOf s.log = [] → s.ownerVersion = -1 ∧ s.ownerStatus = -1))
      | none => True) :=
  ⟨by decide, c1_commit_version 1 11 5 _ (by decide)⟩

/-- Claim C3: along every well-formed callback trace of one instance, the
submitted WriteChunk offsets are monotonically non-decreasing, every
submitted write except at most the final one has numBytes a multiple of
CHECKSUM_BLOCKSIZE, every write fits inside the learned chunk size, the
accumulated number of bytes written (mOffset, which sums the numBytesIO
of the completed writes) equals chunkSize whenever the instance reached
the done state and never exceeds chunkSize (for any accepted,
non-negative chunk size), and a misaligned remainder of a read is parked
in the read buffer only when that read reached exactly chunkSize — the
tail to be written as the next, final write. -/
theorem c3_write_discipline (fid cid targetVersion : Int) (tr : List (Ev × Oracle))
    (hwf : ReplicatorImpl.wfTrace (ReplicatorImpl.initState fid cid targetVersion)
      Phase.preRun tr = true) :
    match ReplicatorImpl.runTrace (ReplicatorImpl.initState fid cid targetVersion)
        Phase.preRun tr with
    | some (s, ph) =>
        List.Chain' (fun a b : Int × Int => a.1 ≤ b.1) (writesOf s.log) ∧
        (∀ w ∈ (writesOf s.log).dropLast, w.2 % CHECKSUM_BLOCKSIZE = 0) ∧
        (∀ w ∈ writesOf s.log, 0 ≤ w.1 ∧ 0 < w.2 ∧ w.1 + w.2 ≤ s.chunkSize) ∧
        0 ≤ s.offset ∧
        (0 ≤ s.chunkSize → s.offset ≤ s.chunkSize) ∧
        (s.done = true → s.offset = s.chunkSize) ∧
        (ph = Phase.writeWait →
          s.readOp.offset = s.writeOp.offset + s.writeOp.numBytes →
          0 < bufLen s.readOp.dataBuf →
          (bufLen s.readOp.dataBuf < CHECKSUM_BLOCKSIZE ∧
            s.readOp.offset + bufLen s.readOp.dataBuf = s.chunkSize))
    | none => True := by
  rcases hres : ReplicatorImpl.runTrace (ReplicatorImpl.initState fid cid targetVersion)
      Phase.preRun tr with _ | ⟨s, ph⟩
  · trivial
  · have hInv := ReplicatorImpl.runTrace_inv tr _ _
      (ReplicatorImpl.initState_inv fid cid targetVersion) hwf (s, ph) hres
    refine ⟨hInv.logi.wChain, hInv.logi.wAligned, ?_, hInv.offNN, hInv.offLe,
      hInv.doneOff, ?_⟩
    · intro w hw
      have := hInv.logi.wBound w hw
      exact ⟨this.1, this.2.1, this.2.2.1⟩
    · intro hph h1 h2
      have := hInv.tailInv hph h1 h2
      exact ⟨this.1, this.2.1⟩

/-- Claim C3, witness: the 65537-byte replication, whose log holds an
aligned 65536-byte write followed by the 1-byte tail write. -/
theorem c3_write_discipline_witness :
    ReplicatorImpl.wfTrace (ReplicatorImpl.initState 1 11 5) Phase.preRun
      [(Ev.runEv, ⟨false, true, 0, 0, 0, true⟩),
       (Ev.startDone 0 65537 5, ⟨false, true, 0, 0, 0, true⟩),
       (Ev.readDone 0 65537, ⟨false, true, 0, 0, 0, true⟩),
       (Ev.writeDone 0, ⟨false, true, 0, 0, 0, true⟩),
       (Ev.writeDone 0, ⟨false, true, 0, 0, 0, true⟩),
       (Ev.commitDone 0, ⟨false, true, 0, 0, 0, true⟩)] = true ∧
    (match ReplicatorImpl.runTrace (ReplicatorImpl.initState 1 11 5) Phase.preRun
        [(Ev.runEv, ⟨false, true, 0, 0, 0, true⟩),
         (Ev.startDone 0 65537 5, ⟨false, true, 0, 0, 0, true⟩),
         (Ev.readDone 0 65537, ⟨false, true, 0, 0, 0, true⟩),
         (Ev.writeDone 0, ⟨false, true, 0, 0, 0, true⟩),
         (Ev.writeDone 0, ⟨false, true, 0, 0, 0, true⟩),
         (Ev.commitDone 0, ⟨false, true, 0, 0, 0, true⟩)] with
      | some (s, ph) =>
          List.Chain' (fun a b : Int × Int => a.1 ≤ b.1) (writesOf s.log) ∧
          (∀ w ∈ (writesOf s.log).dropLast, w.2 % CHECKSUM_BLOCKSIZE = 0) ∧
          (∀ w ∈ writesOf s.log, 0 ≤ w.1 ∧ 0 < w.2 ∧ w.1 + w.2 ≤ s.chunkSize) ∧
          0 ≤ s.offset ∧
          (0 ≤ s.chunkSize → s.offset ≤ s.chunkSize) ∧
          (s.done = true → s.offset = s.chunkSize) ∧
          (ph = Phase.writeWait →
            s.readOp.offset = s.writeOp.offset + s.writeOp.numBytes →
            0 < bufLen s.readOp.dataBuf →
            (bufLen s.readOp.dataBuf < CHECKSUM_BLOCKSIZE ∧
              s.readOp.offset + bufLen s.readOp.dataBuf = s.chunkSize))
      | none => True) :=
  ⟨by decide, c3_write_discipline 1 11 5 _ (by decide)⟩

/-- Claim C5: along every well-formed trace, nothing is reported before
the terminal transition, and at completion exactly one response has been
submitted for the op and ChunkManager.ReplicationDone has been called
exactly once — except when the instance was superseded (it had been
canceled and, at the HandleReplicationDone registry lookup, another
instance was registered for its chunk id), in which case ReplicationDone
is not called at all.  The ghost field supersededAtDone records that
lookup. -/
theorem c5_single_response (fid cid targetVersion : Int) (tr : List (Ev × Oracle))
    (hwf : ReplicatorImpl.wfTrace (ReplicatorImpl.initState fid cid targetVersion)
      Phase.preRun tr = true) :
    match ReplicatorImpl.runTrace (ReplicatorImpl.initState fid cid targetVersion)
        Phase.preRun tr with
    | some (s, ph) =>
        (ph ≠ Phase.finished → respsOf s.log = [] ∧ notifyCount s.log = 0) ∧
        (ph = Phase.finished →
          respsOf s.log = [(s.ownerStatus, s.ownerVersion)] ∧
          ∃ superseded, s.supersededAtDone = some superseded ∧
            notifyCount s.log = (if superseded then 0 else 1))
    | none => True := by
  rcases hres : ReplicatorImpl.runTrace (ReplicatorImpl.initState fid cid targetVersion)
      Phase.preRun tr with _ | ⟨s, ph⟩
  · trivial
  · have hInv := ReplicatorImpl.runTrace_inv tr _ _
      (ReplicatorImpl.initState_inv fid cid targetVersion) hwf (s, ph) hres
    constructor
    · intro hph
      exact ⟨(hInv.pend hph).1, (hInv.pend hph).2.1⟩
    · intro hph
      exact hInv.fin hph

/-- Claim C5, witness: a canceled instance that was superseded (the
registry lookup no longer finds it) submits its one response but never
calls ReplicationDone. -/
theorem c5_single_response_witness :
    ReplicatorImpl.wfTrace (ReplicatorImpl.initState 1 11 5) Phase.preRun
      [(Ev.runEv, ⟨false, true, 0, 0, 0, true⟩),
       (Ev.startDone 0 65536 5, ⟨false, true, 0, 0, 0, true⟩),
       (Ev.cancel, ⟨false, true, 0, 0, 0, false⟩),
       (Ev.readDone 0 65536, ⟨false, true, 0, 0, 0, false⟩)] = true ∧
    (match ReplicatorImpl.runTrace (ReplicatorImpl.initState 1 11 5) Phase.preRun
        [(Ev.runEv, ⟨false, true, 0, 0, 0, true⟩),
         (Ev.startDone 0 65536 5, ⟨false, true, 0, 0, 0, true⟩),
         (Ev.cancel, ⟨false, true, 0, 0, 0, false⟩),
         (Ev.readDone 0 65536, ⟨false, true, 0, 0, 0, false⟩)] with
      | some (s, ph) =>
          (ph ≠ Phase.finished → respsOf s.log = [] ∧ notifyCount s.log = 0) ∧
          (ph = Phase.finished →
            respsOf s.log = [(s.ownerStatus, s.ownerVersion)] ∧
            ∃ superseded, s.supersededAtDone = some superseded ∧
              notifyCount s.log = (if superseded then 0 else 1))
      | none => True) :=
  ⟨by decide, c5_single_response 1 11 5 _ (by decide)⟩

/-- Claim C6: a startDone event at the metaWait suspension point is
dispatched to HandleStartDone with the reply stored in the metadata op;
a reply with negative status or a chunk size outside [0, CHUNKSIZE]
makes the (uncanceled) instance terminate as a failure — no AllocChunk
and no peer read are issued, the log gains only the ReplicationDone
notification and the response, and the op completes with status -1 and
chunkVersion -1; conversely a valid reply first marks the existing local
copy stale, then allocates a new chunk file with version 0, and only
then issues the first peer read. -/
theorem c6_metadata_validation (s : ReplState) (o : Oracle) (st csz cver : Int)
    (hcanc : s.canceled = false) (hdone0 : s.done = false) :
    ReplicatorImpl.stepRepl s Phase.metaWait (Ev.startDone st csz cver) o =
      some (ReplicatorImpl.HandleStartDone
        { s with metaOp := ⟨st, csz, cver⟩ } o) ∧
    ((st < 0 ∨ csz < 0 ∨ CHUNKSIZE < csz) →
      (ReplicatorImpl.HandleStartDone { s with metaOp := ⟨st, csz, cver⟩ } o).2 =
        Phase.finished ∧
      (ReplicatorImpl.HandleStartDone
        { s with metaOp := ⟨st, csz, cver⟩ } o).1.ownerStatus = -1 ∧
      (ReplicatorImpl.HandleStartDone
        { s with metaOp := ⟨st, csz, cver⟩ } o).1.ownerVersion = -1 ∧
      (ReplicatorImpl.HandleStartDone
        { s with metaOp := ⟨st, csz, cver⟩ } o).1.log =
        s.log ++ [Eff.replicationDone s.chunkId (-1),
          Eff.submitResponse (-1) (-1)]) ∧
    (0 ≤ st → 0 ≤ csz → csz ≤ CHUNKSIZE → 0 ≤ o.allocRes →
      s.offset = 0 → 0 < csz →
      (ReplicatorImpl.HandleStartDone { s with metaOp := ⟨st, csz, cver⟩ } o).2 =
        Phase.readWait ∧
      (ReplicatorImpl.HandleStartDone
        { s with metaOp := ⟨st, csz, cver⟩ } o).1.chunkSize = csz ∧
      (ReplicatorImpl.HandleStartDone
        { s with metaOp := ⟨st, csz, cver⟩ } o).1.chunkVersion = cver ∧
      (ReplicatorImpl.HandleStartDone
        { s with metaOp := ⟨st, csz, cver⟩ } o).1.log =
        s.log ++ [Eff.staleChunk s.chunkId,
          Eff.allocChunk s.fileId s.chunkId 0,
          Eff.peerRead 0 (min csz kDefaultReplicationReadSize)]) := by
  refine ⟨rfl, ?_, ?_⟩
  · intro hbad
    by_cases hst : st < 0
    · unfold ReplicatorImpl.HandleStartDone
      rw [if_pos (Or.inr hst)]
      unfold ReplicatorImpl.Terminate
      rw [if_neg (by simp [hdone0])]
      unfold ReplicatorImpl.HandleReplicationDone
      refine ⟨rfl, by norm_num [ReplicatorImpl.ownerStatusOf], ?_, ?_⟩
      · show ReplicatorImpl.ownerVersionOf _ (-1) = -1
        unfold ReplicatorImpl.ownerVersionOf
        rw [if_neg (by norm_num)]
      · show _ ++ ReplicatorImpl.notifyEffsOf _ (-1) o ++ _ = _
        rw [show ReplicatorImpl.notifyEffsOf { s with metaOp := ⟨st, csz, cver⟩ } (-1) o =
          [Eff.replicationDone s.chunkId (-1)] from by
            unfold ReplicatorImpl.notifyEffsOf
            rw [if_pos (by simp [hcanc])]]
        simp [ReplicatorImpl.ownerStatusOf, ReplicatorImpl.ownerVersionOf, hcanc]
    · have hbad' : csz < 0 ∨ CHUNKSIZE < csz := by
        rcases hbad with h | h | h
        · omega
        · exact Or.inl h
        · exact Or.inr h
      unfold ReplicatorImpl.HandleStartDone
      rw [if_neg (by simp [hcanc]; omega), if_pos hbad']
      unfold ReplicatorImpl.Terminate
      rw [if_neg (by simp [hdone0])]
      unfold ReplicatorImpl.HandleReplicationDone
      refine ⟨rfl, by norm_num [ReplicatorImpl.ownerStatusOf], ?_, ?_⟩
      · show ReplicatorImpl.ownerVersionOf _ (-1) = -1
        unfold ReplicatorImpl.ownerVersionOf
        rw [if_neg (by norm_num)]
      · show _ ++ ReplicatorImpl.notifyEffsOf _ (-1) o ++ _ = _
        rw [show ReplicatorImpl.notifyEffsOf _ (-1) o = [Eff.replicationDone s.chunkId (-1)] from by
          unfold ReplicatorImpl.notifyEffsOf
          rw [if_pos (by simp [hcanc])]]
        simp [ReplicatorImpl.ownerStatusOf, ReplicatorImpl.ownerVersionOf, hcanc]
  · intro h1 h2 h3 h4 hoff0 hpos
    unfold ReplicatorImpl.HandleStartDone
    rw [if_neg (by simp [hcanc]; omega), if_neg (by simp; omega),
      if_neg (by omega)]
    unfold ReplicatorImpl.Read
    rw [if_neg (by simp [hoff0]; omega)]
    refine ⟨rfl, rfl, rfl, ?_⟩
    simp [hoff0]

/-- Claim C6, witness: a fresh instance for chunk 11 receiving a
metadata reply, instantiated both for a bad reply (the conclusion's
first implication) and a good one. -/
theorem c6_metadata_validation_witness :
    ((ReplicatorImpl.initState 1 11 5).canceled = false ∧
      (ReplicatorImpl.initState 1 11 5).done = false) ∧
    (ReplicatorImpl.stepRepl (ReplicatorImpl.initState 1 11 5) Phase.metaWait
        (Ev.startDone 0 67108865 5) ⟨false, true, 0, 0, 0, true⟩ =
      some (ReplicatorImpl.HandleStartDone
        { ReplicatorImpl.initState 1 11 5 with metaOp := ⟨0, 67108865, 5⟩ }
        ⟨false, true, 0, 0, 0, true⟩) ∧
    ((0 : Int) < 0 ∨ (67108865 : Int) < 0 ∨ CHUNKSIZE < 67108865 →
      (ReplicatorImpl.HandleStartDone
        { ReplicatorImpl.initState 1 11 5 with metaOp := ⟨0, 67108865, 5⟩ }
        ⟨false, true, 0, 0, 0, true⟩).2 = Phase.finished ∧
      (ReplicatorImpl.HandleStartDone
        { ReplicatorImpl.initState 1 11 5 with metaOp := ⟨0, 67108865, 5⟩ }
        ⟨false, true, 0, 0, 0, true⟩).1.ownerStatus = -1 ∧
      (ReplicatorImpl.HandleStartDone
        { ReplicatorImpl.initState 1 11 5 with metaOp := ⟨0, 67108865, 5⟩ }
        ⟨false, true, 0, 0, 0, true⟩).1.ownerVersion = -1 ∧
      (ReplicatorImpl.HandleStartDone
        { ReplicatorImpl.initState 1 11 5 with metaOp := ⟨0, 67108865, 5⟩ }
        ⟨false, true, 0, 0, 0, true⟩).1.log =
        (ReplicatorImpl.initState 1 11 5).log ++
          [Eff.replicationDone (ReplicatorImpl.initState 1 11 5).chunkId (-1),
            Eff.submitResponse (-1) (-1)]) ∧
    ((0 : Int) ≤ 0 → (0 : Int) ≤ 67108865 → (67108865 : Int) ≤ CHUNKSIZE →
      (0 : Int) ≤ (⟨false, true, 0, 0, 0, true⟩ : Oracle).allocRes →
      (ReplicatorImpl.initState 1 11 5).offset = 0 → (0 : Int) < 67108865 →
      (ReplicatorImpl.HandleStartDone
        { ReplicatorImpl.initState 1 11 5 with metaOp := ⟨0, 67108865, 5⟩ }
        ⟨false, true, 0, 0, 0, true⟩).2 = Phase.readWait ∧
      (ReplicatorImpl.HandleStartDone
        { ReplicatorImpl.initState 1 11 5 with metaOp := ⟨0, 67108865, 5⟩ }
        ⟨false, true, 0, 0, 0, true⟩).1.chunkSize = 67108865 ∧
      (ReplicatorImpl.HandleStartDone
        { ReplicatorImpl.initState 1 11 5 with metaOp := ⟨0, 67108865, 5⟩ }
        ⟨false, true, 0, 0, 0, true⟩).1.chunkVersion = 5 ∧
      (ReplicatorImpl.HandleStartDone
        { ReplicatorImpl.initState 1 11 5 with metaOp := ⟨0, 67108865, 5⟩ }
        ⟨false, true, 0, 0, 0, true⟩).1.log =
        (ReplicatorImpl.initState 1 11 5).log ++
          [Eff.staleChunk (ReplicatorImpl.initState 1 11 5).chunkId,
            Eff.allocChunk (ReplicatorImpl.initState 1 11 5).fileId
              (ReplicatorImpl.initState 1 11 5).chunkId 0,
            Eff.peerRead 0 (min 67108865 kDefaultReplicationReadSize)])) :=
  ⟨⟨rfl, rfl⟩, c6_metadata_validation (ReplicatorImpl.initState 1 11 5)
    ⟨false, true, 0, 0, 0, true⟩ 0 67108865 5 rfl rfl⟩

/-- Claim C9: Run requests buffer admission for
max(16 KiB, GetBufferBytesRequired()); an over-quota verdict terminates
the (fresh, uncanceled) instance immediately with failure status — the
log gains only the buffer request, the ReplicationDone notification and
the response, so no peer RPC or disk write is issued, and the instance
does not move to the wait phase; a synchronous grant starts it at once
(the metadata request goes out); otherwise it parks in admitWait, and
the Granted callback is what makes it start. -/
theorem c9_buffer_admission (s : ReplState) (o : Oracle)
    (hdone0 : s.done = false) (hcanc : s.canceled = false) :
    ReplicatorImpl.stepRepl s Phase.preRun Ev.runEv o =
      some (ReplicatorImpl.RunAdmit s o) ∧
    (o.overQuota = true →
      (ReplicatorImpl.RunAdmit s o).2 = Phase.finished ∧
      (ReplicatorImpl.RunAdmit s o).1.ownerStatus = -1 ∧
      (ReplicatorImpl.RunAdmit s o).1.ownerVersion = -1 ∧
      (ReplicatorImpl.RunAdmit s o).1.log = s.log ++
        [Eff.bufRequest (max 16384 s.bufferBytesRequired),
          Eff.replicationDone s.chunkId (-1),
          Eff.submitResponse (-1) (-1)]) ∧
    (o.overQuota = false → o.grantSync = true →
      (ReplicatorImpl.RunAdmit s o).2 = Phase.metaWait ∧
      (ReplicatorImpl.RunAdmit s o).1.log = s.log ++
        [Eff.bufRequest (max 16384 s.bufferBytesRequired), Eff.peerMeta]) ∧
    (o.overQuota = false → o.grantSync = false →
      (ReplicatorImpl.RunAdmit s o).2 = Phase.admitWait ∧
      (ReplicatorImpl.RunAdmit s o).1.log = s.log ++
        [Eff.bufRequest (max 16384 s.bufferBytesRequired)] ∧
      ReplicatorImpl.stepRepl (ReplicatorImpl.RunAdmit s o).1 Phase.admitWait
          Ev.granted o =
        some (ReplicatorImpl.Start (ReplicatorImpl.RunAdmit s o).1) ∧
      (ReplicatorImpl.Start (ReplicatorImpl.RunAdmit s o).1).2 = Phase.metaWait ∧
      (ReplicatorImpl.Start (ReplicatorImpl.RunAdmit s o).1).1.log =
        (ReplicatorImpl.RunAdmit s o).1.log ++ [Eff.peerMeta]) := by
  refine ⟨rfl, ?_, ?_, ?_⟩
  · intro hq
    unfold ReplicatorImpl.RunAdmit
    rw [if_pos hq]
    unfold ReplicatorImpl.Terminate
    rw [if_neg (by simp [hdone0])]
    unfold ReplicatorImpl.HandleReplicationDone
    refine ⟨rfl, by norm_num [ReplicatorImpl.ownerStatusOf], ?_, ?_⟩
    · show ReplicatorImpl.ownerVersionOf _ (-1) = -1
      unfold ReplicatorImpl.ownerVersionOf
      rw [if_neg (by norm_num)]
    · show _ ++ ReplicatorImpl.notifyEffsOf _ (-1) o ++ _ = _
      rw [show ReplicatorImpl.notifyEffsOf _ (-1) o =
        [Eff.replicationDone s.chunkId (-1)] from by
          unfold ReplicatorImpl.notifyEffsOf
          rw [if_pos (by simp [hcanc])]]
      simp [ReplicatorImpl.ownerStatusOf, ReplicatorImpl.ownerVersionOf, hcanc]
  · intro hq hg
    unfold ReplicatorImpl.RunAdmit
    rw [if_neg (by simp [hq]), if_pos hg]
    unfold ReplicatorImpl.Start
    exact ⟨rfl, by simp⟩
  · intro hq hg
    unfold ReplicatorImpl.RunAdmit
    rw [if_neg (by simp [hq]), if_neg (by simp [hg])]
    exact ⟨rfl, rfl, rfl, rfl, rfl⟩

/-- Claim C9, witness: a fresh instance, instantiated with an over-quota
oracle (the other two implications hold vacuously at this oracle). -/
theorem c9_buffer_admission_witness :
    ((ReplicatorImpl.initState 1 11 5).done = false ∧
      (ReplicatorImpl.initState 1 11 5).canceled = false) ∧
    ((ReplicatorImpl.initState 1 11 5).bufferBytesRequired =
      kDefaultReplicationReadSize) ∧
    (ReplicatorImpl.RunAdmit (ReplicatorImpl.initState 1 11 5)
        ⟨true, false, 0, 0, 0, true⟩).2 = Phase.finished ∧
    (ReplicatorImpl.RunAdmit (ReplicatorImpl.initState 1 11 5)
        ⟨true, false, 0, 0, 0, true⟩).1.ownerStatus = -1 ∧
    (ReplicatorImpl.RunAdmit (ReplicatorImpl.initState 1 11 5)
        ⟨true, false, 0, 0, 0, true⟩).1.log =
      (ReplicatorImpl.initState 1 11 5).log ++
        [Eff.bufRequest (max 16384
          (ReplicatorImpl.initState 1 11 5).bufferBytesRequired),
          Eff.replicationDone (ReplicatorImpl.initState 1 11 5).chunkId (-1),
          Eff.submitResponse (-1) (-1)] := by
  have h := c9_buffer_admission (ReplicatorImpl.initState 1 11 5)
    ⟨true, false, 0, 0, 0, true⟩ rfl rfl
  obtain ⟨hover1, hover2, hover3, hover4⟩ := h.2.1 rfl
  exact ⟨⟨rfl, rfl⟩, rfl, hover1, hover2, hover4⟩

namespace RSReplicatorImpl

/-- Little-endian unsigned integer value of a byte list.  Modelled from
the spec: ReadVal memcpy's raw buffer bytes into an integer; the chunk
server targets are little-endian. -/
def decodeLE : List Nat → Nat
  | [] => 0
  | b :: rest => b + 256 * decodeLE rest

/-- Two's-complement reinterpretation of a w-byte unsigned value as a
signed integer. -/
def toSigned (w v : Nat) : Int :=
  if v < 2 ^ (8 * w - 1) then (v : Int) else (v : Int) - 2 ^ (8 * w)

/-- RSReplicatorImpl::ReadVal (Replicator.cc lines 905-912) for a field
of w bytes: copy out and consume w bytes; if fewer are available the
code dies ("invalid buffer size"), modelled as none. -/
def ReadVal (w : Nat) (buf : List Nat) : Option (Int × List Nat) :=
  if w ≤ buf.length then some (toSigned w (decodeLE (buf.take w)), buf.drop w)
  else none

/-- One triplet as appended to the ostringstream (Replicator.cc lines
820-821): a separating space when it is not the first entry, then the
three decimal values separated by single spaces. -/
def renderTriplet (n : Nat) (idx cid ver : Int) : String :=
  (if 0 < n then " " else "") ++ toString idx ++ " " ++ toString cid ++
    " " ++ toString ver

/-- The three consecutive ReadVal calls of one loop iteration
(Replicator.cc lines 812-814): stripeIdx as a 4-byte int, then chunkId
(kfsChunkId_t) and chunkVersion (int64_t) as 8-byte fields; none when
the buffer runs short, in which case ReadVal dies with
"invalid buffer size".  The sizeof values are those of the chunk server
targets, modelled from the spec. -/
def readTriplet (buf : List Nat) : Option (Int × Int × Int × List Nat) :=
  match ReadVal 4 buf with
  | none => none
  | some (idx, b1) =>
    match ReadVal 8 b1 with
    | none => none
    | some (cid, b2) =>
      match ReadVal 8 b2 with
      | none => none
      | some (ver, b3) => some (idx, cid, ver, b3)

theorem ReadVal_length {w : Nat} {buf : List Nat} {x : Int} {r : List Nat}
    (h : ReadVal w buf = some (x, r)) :
    r.length = buf.length - w ∧ w ≤ buf.length := by
  unfold ReadVal at h
  split at h
  · rename_i hw
    cases h
    exact ⟨by simp, hw⟩
  · cases h

theorem readTriplet_length {buf : List Nat} {idx cid ver : Int}
    {b3 : List Nat} (h : readTriplet buf = some (idx, cid, ver, b3)) :
    b3.length = buf.length - 20 ∧ 20 ≤ buf.length := by
  unfold readTriplet at h
  split at h
  · cases h
  rename_i h1
  split at h
  · cases h
  rename_i h2
  split at h
  · cases h
  rename_i h3
  cases h
  obtain ⟨e1a, e1b⟩ := ReadVal_length h1
  obtain ⟨e2a, e2b⟩ := ReadVal_length h2
  obtain ⟨e3a, e3b⟩ := ReadVal_length h3
  omega

set_option linter.unusedVariables false in
/-- The while loop of the bad-stripe branch of RSReplicatorImpl::Done
(Replicator.cc lines 800-823).  `ns` is numStripes + numRecoveryStripes;
`n` counts accepted triplets and `acc` is the ostringstream content.
The two die() calls (too many triplets; stripe index outside [0, ns))
and the die inside ReadVal are modelled as errors carrying the message. -/
def parseInvalidStripes (ns : Int) (n : Nat) (acc : String) (buf : List Nat) :
    Except String (String × Nat) :=
  if buf.isEmpty then Except.ok (acc, n)
  else if ns ≤ (n : Int) then
    Except.error "recovery: completion: invalid number of bad stripes"
  else
    match h1 : readTriplet buf with
    | none => Except.error "invalid buffer size"
    | some (idx, cid, ver, buf3) =>
      if idx < 0 ∨ ns ≤ idx then
        Except.error "recovery: completion: invalid bad stripe index"
      else
        parseInvalidStripes ns (n + 1) (acc ++ renderTriplet n idx cid ver)
          buf3
termination_by buf.length
decreasing_by
  have e := readTriplet_length h1
  omega

/-- The bad-stripe reporting branch of RSReplicatorImpl::Done
(Replicator.cc lines 797-831), run on a failed read completion with a
non-empty status buffer: parse the triplets and, when at least one was
accepted, produce the op's new invalidStripeIdx string. -/
def reportInvalidStripes (numStripes numRecoveryStripes : Int)
    (buf : List Nat) : Except String (Option String) :=
  match parseInvalidStripes (numStripes + numRecoveryStripes) 0 "" buf with
  | Except.ok (s, n) => Except.ok (if 0 < n then some s else none)
  | Except.error e => Except.error e

/-- w bytes of the little-endian encoding of an unsigned value. -/
def leBytes : Nat → Nat → List Nat
  | 0, _ => []
  | w + 1, v => v % 256 :: leBytes w (v / 256)

/-- The wire form of one (stripeIdx, chunkId, chunkVersion) triplet:
4-byte then twice 8-byte little-endian two's-complement fields. -/
def encodeTriplet (t : Int × Int × Int) : List Nat :=
  leBytes 4 (t.1 % 2 ^ 32).toNat ++ leBytes 8 (t.2.1 % 2 ^ 64).toNat ++
    leBytes 8 (t.2.2 % 2 ^ 64).toNat

/-- A status buffer holding consecutive triplets. -/
def encodeTriplets : List (Int × Int × Int) → List Nat
  | [] => []
  | t :: rest => encodeTriplet t ++ encodeTriplets rest

/-- One triplet as decimal text. -/
def tripletStr (t : Int × Int × Int) : String :=
  toString t.1 ++ " " ++ toString t.2.1 ++ " " ++ toString t.2.2

/-- The space-separated rendering of triplets in encounter order, as the
spec words the diagnostic string. -/
def specRender : List (Int × Int × Int) → String
  | [] => ""
  | [t] => tripletStr t
  | t :: rest => tripletStr t ++ " " ++ specRender rest

end RSReplicatorImpl
namespace RSReplicatorImpl

theorem leBytes_length : ∀ (w v : Nat), (leBytes w v).length = w
  | 0, _ => rfl
  | w + 1, v => by simp [leBytes, leBytes_length w]

theorem decodeLE_leBytes : ∀ (w v : Nat), decodeLE (leBytes w v) = v % 256 ^ w
  | 0, v => by simp [leBytes, decodeLE, Nat.mod_one]
  | w + 1, v => by
    rw [leBytes, decodeLE, decodeLE_leBytes w, pow_succ', Nat.mod_mul]

theorem toSigned_decode4 (x : Int) (h1 : -2 ^ 31 ≤ x) (h2 : x < 2 ^ 31) :
    toSigned 4 (decodeLE (leBytes 4 (x % 2 ^ 32).toNat)) = x := by
  rw [decodeLE_leBytes, show (256 : Nat) ^ 4 = 2 ^ 32 by norm_num]
  unfold toSigned
  norm_num at h1 h2 ⊢
  split <;> omega

theorem toSigned_decode8 (x : Int) (h1 : -2 ^ 63 ≤ x) (h2 : x < 2 ^ 63) :
    toSigned 8 (decodeLE (leBytes 8 (x % 2 ^ 64).toNat)) = x := by
  rw [decodeLE_leBytes, show (256 : Nat) ^ 8 = 2 ^ 64 by norm_num]
  unfold toSigned
  norm_num at h1 h2 ⊢
  split <;> omega

theorem ReadVal_encode4 (x : Int) (h1 : -2 ^ 31 ≤ x) (h2 : x < 2 ^ 31)
    (rest : List Nat) :
    ReadVal 4 (leBytes 4 (x % 2 ^ 32).toNat ++ rest) = some (x, rest) := by
  have hlen : (leBytes 4 (x % 2 ^ 32).toNat).length = 4 := leBytes_length 4 _
  unfold ReadVal
  rw [if_pos (by rw [List.length_append, hlen]; omega), List.take_left' hlen,
    List.drop_left' hlen, toSigned_decode4 x h1 h2]

theorem ReadVal_encode8 (x : Int) (h1 : -2 ^ 63 ≤ x) (h2 : x < 2 ^ 63)
    (rest : List Nat) :
    ReadVal 8 (leBytes 8 (x % 2 ^ 64).toNat ++ rest) = some (x, rest) := by
  have hlen : (leBytes 8 (x % 2 ^ 64).toNat).length = 8 := leBytes_length 8 _
  unfold ReadVal
  rw [if_pos (by rw [List.length_append, hlen]; omega), List.take_left' hlen,
    List.drop_left' hlen, toSigned_decode8 x h1 h2]

end RSReplicatorImpl
namespace RSReplicatorImpl

/-- The diagnostic text produced for a triplet list starting at running
count n: each entry is rendered by renderTriplet with its index. -/
def renderFrom : Nat → List (Int × Int × Int) → String
  | _, [] => ""
  | n, t :: rest => renderTriplet n t.1 t.2.1 t.2.2 ++ renderFrom (n + 1) rest

/-- Value bounds under which a triplet's fields survive the sized binary
encoding: stripeIdx fits an int, chunkId and chunkVersion fit int64. -/
def tripletFits (t : Int × Int × Int) : Prop :=
  -2 ^ 31 ≤ t.1 ∧ t.1 < 2 ^ 31 ∧ -2 ^ 63 ≤ t.2.1 ∧ t.2.1 < 2 ^ 63 ∧
    -2 ^ 63 ≤ t.2.2 ∧ t.2.2 < 2 ^ 63

theorem encodeTriplets_append : ∀ (a b : List (Int × Int × Int)),
    encodeTriplets (a ++ b) = encodeTriplets a ++ encodeTriplets b
  | [], _ => rfl
  | t :: a, b => by
    simp [encodeTriplets, encodeTriplets_append a b]

theorem readTriplet_encode (t : Int × Int × Int) (hfit : tripletFits t)
    (tail : List Nat) :
    readTriplet (encodeTriplet t ++ tail) =
      some (t.1, t.2.1, t.2.2, tail) := by
  obtain ⟨hi1, hi2, hc1, hc2, hv1, hv2⟩ := hfit
  simp only [readTriplet, encodeTriplet, List.append_assoc,
    ReadVal_encode4 t.1 hi1 hi2, ReadVal_encode8 t.2.1 hc1 hc2,
    ReadVal_encode8 t.2.2 hv1 hv2]

theorem parse_nil (ns : Int) (n : Nat) (acc : String) :
    parseInvalidStripes ns n acc [] = Except.ok (acc, n) := by
  rw [parseInvalidStripes]
  rfl

theorem parse_over {ns : Int} {n : Nat} {buf : List Nat} (acc : String)
    (hne : buf.isEmpty = false) (hcnt : ns ≤ (n : Int)) :
    parseInvalidStripes ns n acc buf =
      Except.error "recovery: completion: invalid number of bad stripes" := by
  have hfa : ¬ (false = true) := by decide
  rw [parseInvalidStripes, hne, if_neg hfa, if_pos hcnt]

theorem parse_step {ns : Int} {n : Nat} {buf : List Nat} (acc : String)
    (hne : buf.isEmpty = false) (hcnt : ¬ ns ≤ (n : Int))
    {idx cid ver : Int} {b3 : List Nat}
    (hrt : readTriplet buf = some (idx, cid, ver, b3)) :
    parseInvalidStripes ns n acc buf =
      if idx < 0 ∨ ns ≤ idx then
        Except.error "recovery: completion: invalid bad stripe index"
      else
        parseInvalidStripes ns (n + 1) (acc ++ renderTriplet n idx cid ver)
          b3 := by
  have hfa : ¬ (false = true) := by decide
  rw [parseInvalidStripes, hne, if_neg hfa, if_neg hcnt]
  split
  · rename_i h1
    rw [hrt] at h1
    cases h1
  · rename_i idx' cid' ver' b3' h1
    rw [hrt] at h1
    simp only [Option.some.injEq, Prod.mk.injEq] at h1
    obtain ⟨rfl, rfl, rfl, rfl⟩ := h1
    rfl

theorem parse_steps (ns : Int) :
    ∀ (pre : List (Int × Int × Int)) (n : Nat) (acc : String)
      (tail : List Nat),
      (n : Int) + pre.length ≤ ns →
      (∀ u ∈ pre, tripletFits u ∧ 0 ≤ u.1 ∧ u.1 < ns) →
      parseInvalidStripes ns n acc (encodeTriplets pre ++ tail) =
        parseInvalidStripes ns (n + pre.length) (acc ++ renderFrom n pre) tail
  | [], n, acc, tail, _, _ => by
    simp [encodeTriplets, renderFrom, String.append_empty]
  | t :: pre, n, acc, tail, hle, hwf => by
    obtain ⟨hfit, hnn, hlt⟩ := hwf t (List.mem_cons_self t pre)
    rw [List.length_cons] at hle
    push_cast at hle
    have hne : (encodeTriplets (t :: pre) ++ tail).isEmpty = false := by
      simp [encodeTriplets, encodeTriplet, leBytes]
    have hcnt : ¬ ns ≤ (n : Int) := by omega
    have hsplit : encodeTriplets (t :: pre) ++ tail =
        encodeTriplet t ++ (encodeTriplets pre ++ tail) := by
      simp [encodeTriplets]
    have hrt : readTriplet (encodeTriplets (t :: pre) ++ tail) =
        some (t.1, t.2.1, t.2.2, encodeTriplets pre ++ tail) := by
      rw [hsplit]
      exact readTriplet_encode t hfit _
    have hidx : ¬ (t.1 < 0 ∨ ns ≤ t.1) := by omega
    have hcount : n + 1 + pre.length = n + (t :: pre).length := by
      rw [List.length_cons]
      omega
    rw [parse_step acc hne hcnt hrt, if_neg hidx,
      parse_steps ns pre (n + 1) (acc ++ renderTriplet n t.1 t.2.1 t.2.2)
        tail (by push_cast; omega)
        (fun u hu => hwf u (List.mem_cons_of_mem t hu)),
      String.append_assoc, hcount]
    simp [renderFrom]

end RSReplicatorImpl
namespace RSReplicatorImpl

theorem renderFrom_succ : ∀ (ts : List (Int × Int × Int)) (n : Nat),
    renderFrom (n + 1) ts = if ts.isEmpty then "" else " " ++ specRender ts
  | [], _ => by simp [renderFrom]
  | [t], n => by
    simp [renderFrom, renderTriplet, specRender, tripletStr,
      String.append_assoc, String.append_empty, Nat.succ_pos]
  | t :: u :: us, n => by
    have e1 : renderFrom (n + 1) (t :: u :: us) =
        renderTriplet (n + 1) t.1 t.2.1 t.2.2 ++
          renderFrom (n + 1 + 1) (u :: us) := rfl
    rw [e1, renderFrom_succ (u :: us) (n + 1)]
    simp only [List.isEmpty_cons, Bool.false_eq_true, if_false]
    simp [renderTriplet, tripletStr, specRender, String.append_assoc,
      Nat.succ_pos]

theorem renderFrom_zero : ∀ ts, renderFrom 0 ts = specRender ts
  | [] => rfl
  | [t] => by
    simp [renderFrom, renderTriplet, specRender, tripletStr,
      String.append_empty, String.empty_append, String.append_assoc]
  | t :: u :: us => by
    have e1 : renderFrom 0 (t :: u :: us) =
        renderTriplet 0 t.1 t.2.1 t.2.2 ++ renderFrom (0 + 1) (u :: us) := rfl
    rw [e1, renderFrom_succ (u :: us) 0]
    simp only [List.isEmpty_cons, Bool.false_eq_true, if_false]
    simp [renderTriplet, tripletStr, specRender, String.append_assoc,
      String.empty_append]

end RSReplicatorImpl
namespace RSReplicatorImpl

theorem reportInvalidStripes_ok (nS nR : Int) (ts : List (Int × Int × Int))
    (hfits : ∀ t ∈ ts, tripletFits t)
    (hidx : ∀ t ∈ ts, 0 ≤ t.1 ∧ t.1 < nS + nR)
    (hlen : (ts.length : Int) ≤ nS + nR) (hne : ts ≠ []) :
    reportInvalidStripes nS nR (encodeTriplets ts) =
      Except.ok (some (specRender ts)) := by
  have hsteps := parse_steps (nS + nR) ts 0 "" [] (by omega)
    (fun u hu => ⟨hfits u hu, (hidx u hu).1, (hidx u hu).2⟩)
  rw [List.append_nil] at hsteps
  unfold reportInvalidStripes
  rw [hsteps, parse_nil, String.empty_append, renderFrom_zero]
  have hpos : 0 < ts.length := List.length_pos.mpr hne
  simp [hpos]

theorem reportInvalidStripes_over (nS nR : Int) (ts : List (Int × Int × Int))
    (hfits : ∀ t ∈ ts, tripletFits t)
    (hidx : ∀ t ∈ ts, 0 ≤ t.1 ∧ t.1 < nS + nR)
    (hns : 0 ≤ nS + nR) (hlen : nS + nR < (ts.length : Int)) :
    reportInvalidStripes nS nR (encodeTriplets ts) =
      Except.error "recovery: completion: invalid number of bad stripes" := by
  have hsplit : ts = ts.take (nS + nR).toNat ++ ts.drop (nS + nR).toNat :=
    (List.take_append_drop _ _).symm
  have htl : (ts.take (nS + nR).toNat).length = (nS + nR).toNat := by
    rw [List.length_take]
    omega
  have hdropne : ts.drop (nS + nR).toNat ≠ [] := by
    intro h0
    rw [List.drop_eq_nil_iff] at h0
    omega
  obtain ⟨u, us, hus⟩ := List.exists_cons_of_ne_nil hdropne
  have hencne : (encodeTriplets (ts.drop (nS + nR).toNat)).isEmpty = false := by
    rw [hus]
    simp [encodeTriplets, encodeTriplet, leBytes]
  have hsteps := parse_steps (nS + nR) (ts.take (nS + nR).toNat) 0 ""
    (encodeTriplets (ts.drop (nS + nR).toNat))
    (by rw [htl]; omega)
    (fun u hu =>
      ⟨hfits u (List.mem_of_mem_take hu), (hidx u (List.mem_of_mem_take hu)).1,
        (hidx u (List.mem_of_mem_take hu)).2⟩)
  rw [← encodeTriplets_append, ← hsplit] at hsteps
  unfold reportInvalidStripes
  rw [hsteps, parse_over _ hencne (by rw [Nat.zero_add, htl]; omega)]

theorem reportInvalidStripes_badIdx (nS nR : Int)
    (pre : List (Int × Int × Int)) (t : Int × Int × Int) (tail : List Nat)
    (hfits : ∀ u ∈ pre, tripletFits u)
    (hidx : ∀ u ∈ pre, 0 ≤ u.1 ∧ u.1 < nS + nR)
    (hft : tripletFits t) (hbad : t.1 < 0 ∨ nS + nR ≤ t.1)
    (hlen : (pre.length : Int) < nS + nR) :
    reportInvalidStripes nS nR
        (encodeTriplets pre ++ (encodeTriplet t ++ tail)) =
      Except.error "recovery: completion: invalid bad stripe index" := by
  have hsteps := parse_steps (nS + nR) pre 0 "" (encodeTriplet t ++ tail)
    (by omega)
    (fun u hu => ⟨hfits u hu, (hidx u hu).1, (hidx u hu).2⟩)
  have hbne : (encodeTriplet t ++ tail).isEmpty = false := by
    simp [encodeTriplet, leBytes]
  have hcnt : ¬ nS + nR ≤ ((0 + pre.length : Nat) : Int) := by
    push_cast
    omega
  have hrt := readTriplet_encode t hft tail
  unfold reportInvalidStripes
  rw [hsteps, parse_step _ hbne hcnt hrt, if_pos hbad]

end RSReplicatorImpl
namespace RSReplicatorImpl

instance : DecidablePred tripletFits := fun t => by
  unfold tripletFits
  infer_instance

/-- C8: on an RS reader completion with negative status and a non-empty
status buffer, the bytes are parsed as consecutive
(stripeIdx, chunkId, chunkVersion) triplets of sized binary fields
(4-byte int, 8-byte chunkId and chunkVersion); the op's
invalidStripeIdx is set to the space-separated decimal rendering of the
triplets in encounter order, with at most
numStripes + numRecoveryStripes triplets accepted; a triplet count past
that bound dies with "invalid number of bad stripes" and a stripe index
outside [0, numStripes + numRecoveryStripes) dies with
"invalid bad stripe index". -/
theorem c8_invalid_stripes (nS nR : Int) (ts : List (Int × Int × Int))
    (hfits : ∀ t ∈ ts, tripletFits t) :
    (ts ≠ [] → (ts.length : Int) ≤ nS + nR →
      (∀ t ∈ ts, 0 ≤ t.1 ∧ t.1 < nS + nR) →
      reportInvalidStripes nS nR (encodeTriplets ts) =
        Except.ok (some (specRender ts))) ∧
    (0 ≤ nS + nR → nS + nR < (ts.length : Int) →
      (∀ t ∈ ts, 0 ≤ t.1 ∧ t.1 < nS + nR) →
      reportInvalidStripes nS nR (encodeTriplets ts) =
        Except.error "recovery: completion: invalid number of bad stripes") ∧
    (∀ t tail, tripletFits t → (t.1 < 0 ∨ nS + nR ≤ t.1) →
      (ts.length : Int) < nS + nR →
      (∀ u ∈ ts, 0 ≤ u.1 ∧ u.1 < nS + nR) →
      reportInvalidStripes nS nR
          (encodeTriplets ts ++ (encodeTriplet t ++ tail)) =
        Except.error "recovery: completion: invalid bad stripe index") :=
  ⟨fun hne hlen hidx => reportInvalidStripes_ok nS nR ts hfits hidx hlen hne,
   fun hns hlen hidx => reportInvalidStripes_over nS nR ts hfits hidx hns hlen,
   fun t tail hft hbad hlen hidx =>
     reportInvalidStripes_badIdx nS nR ts t tail hfits hidx hft hbad hlen⟩

/-- Witness for C8: with numStripes = 2, numRecoveryStripes = 1 and the
two in-range triplets (0, 5, 7) and (2, 6, -3), the parsed diagnostic
is their space-separated rendering. -/
theorem c8_invalid_stripes_witness :
    reportInvalidStripes 2 1
        (encodeTriplets [((0 : Int), (5 : Int), (7 : Int)), (2, 6, -3)]) =
      Except.ok
        (some (specRender [((0 : Int), (5 : Int), (7 : Int)), (2, 6, -3)])) :=
  (c8_invalid_stripes 2 1 [(0, 5, 7), (2, 6, -3)] (by decide)).1
    (by decide) (by decide) (by decide)

end RSReplicatorImpl
